import Mathlib

/-!
Shallow embedding of the track/artist normalization and upsert core of the
trackstargame batch scripts:

* `scripts/utils/db.py`      — `get_db_connection`, `add_tracks_to_pack`
* `scripts/utils/spotify.py` — `get_best_artist_match`, `get_tracks_batch`
* `scripts/utils/parser.py`  — `parse_track_list`

The relational store is modelled as explicit lists of rows; machine
behaviour of psycopg2 (transaction commit/rollback, `ON CONFLICT` merges,
intra-statement conflict errors) is made explicit.  Fallible code returns
`Except String`.
-/

namespace Trackstar

/-- SQL `COALESCE(a, b)` restricted to two arguments: the first non-null
value, mirroring the `COALESCE(EXCLUDED.col, table.col)` clauses of
`add_tracks_to_pack`. -/
def coalesce {α : Type} (a b : Option α) : Option α :=
  match a with
  | some v => some v
  | none => b

/-- Python whitespace class used by `str.strip()` and the regex `\s`. -/
def isPySpace (c : Char) : Bool :=
  c = ' ' || c = '\t' || c = '\n' || c = '\r' || c = '\x0b' || c = '\x0c'

/-- Python `str.strip()` on a character list. -/
def stripChars (l : List Char) : List Char :=
  ((l.dropWhile isPySpace).reverse.dropWhile isPySpace).reverse

/-- Python `str.strip()`. -/
def pyStrip (s : String) : String :=
  (stripChars s.toList).asString

/-- Python `str.lower()` (ASCII-adequate for the data involved). -/
def pyLower (s : String) : String :=
  (s.toList.map Char.toLower).asString

/-! ## Data model (rows of the normalized schema) -/

/-- A row of the `tracks` table. -/
structure TrackRow where
  id : Nat
  spotify_id : String
  title : String
  album_name : Option String
  album_image_url : Option String
  release_year : Option Int
  spotify_popularity : Option Int
  isrc : Option String
deriving DecidableEq

/-- A row of the `artists` table.  `name` is nullable in the schema
(`COALESCE(EXCLUDED.name, artists.name)` only makes sense then). -/
structure ArtistRow where
  id : Nat
  spotify_artist_id : Option String
  name : Option String
deriving DecidableEq

/-- A row of the `track_artists` association table. -/
structure TrackArtistRow where
  track_id : Nat
  artist_id : Nat
  position : Nat
deriving DecidableEq

/-- A row of the `pack_tracks` association table. -/
structure PackTrackRow where
  pack_id : String
  track_id : Nat
  position : Nat
deriving DecidableEq

/-- The store.  Internal ids are allocated from the `next*Id` counters and,
matching Postgres serial ids, start at 1 (Python truthiness tests like
`if not track_id` therefore coincide with `isSome`). -/
structure DB where
  tracks : List TrackRow
  artists : List ArtistRow
  track_artists : List TrackArtistRow
  pack_tracks : List PackTrackRow
  nextTrackId : Nat
  nextArtistId : Nat
deriving DecidableEq

def emptyDB : DB :=
  { tracks := [], artists := [], track_artists := [], pack_tracks := [],
    nextTrackId := 1, nextArtistId := 1 }

/-! ## Track payloads (the dicts consumed by `add_tracks_to_pack`) -/

/-- The three shapes of artist data on a payload dict: the new
`artist_ids`/`artist_names` array format, the legacy comma-separated
`artist` string, or neither key present. -/
inductive ArtistsField where
  | arrays (ids : List String) (names : List String)
  | legacy (s : String)
  | absent
deriving DecidableEq

structure TrackPayload where
  spotify_id : String
  title : String
  album_name : Option String := none
  album_image_url : Option String := none
  release_year : Option Int := none
  spotify_popularity : Option Int := none
  isrc : Option String := none
  artists : ArtistsField := .absent
deriving DecidableEq

/-! ## Step 1 — track upsert
`INSERT INTO tracks ... ON CONFLICT (spotify_id) DO UPDATE SET
 title = EXCLUDED.title, col = COALESCE(EXCLUDED.col, tracks.col), ...` -/

/-- The `DO UPDATE SET` clause applied to one conflicting row. -/
def mergeTrackRow (r : TrackRow) (p : TrackPayload) : TrackRow :=
  { r with
    title := p.title
    album_name := coalesce p.album_name r.album_name
    album_image_url := coalesce p.album_image_url r.album_image_url
    release_year := coalesce p.release_year r.release_year
    spotify_popularity := coalesce p.spotify_popularity r.spotify_popularity
    isrc := coalesce p.isrc r.isrc }

/-- A freshly inserted `tracks` row. -/
def newTrackRow (p : TrackPayload) (i : Nat) : TrackRow :=
  { id := i, spotify_id := p.spotify_id, title := p.title
    album_name := p.album_name, album_image_url := p.album_image_url
    release_year := p.release_year, spotify_popularity := p.spotify_popularity
    isrc := p.isrc }

/-- Insert-or-merge of a single VALUES row. -/
def upsertTrackOne (db : DB) (p : TrackPayload) : DB :=
  if db.tracks.any (fun r => r.spotify_id == p.spotify_id) then
    { db with tracks := db.tracks.map fun r =>
        if r.spotify_id == p.spotify_id then mergeTrackRow r p else r }
  else
    { db with
      tracks := db.tracks ++ [newTrackRow p db.nextTrackId],
      nextTrackId := db.nextTrackId + 1 }

/-- The whole `execute_values` statement of Step 1.  Two VALUES rows with
the same `spotify_id` make Postgres abort the statement ("ON CONFLICT DO
UPDATE command cannot affect row a second time"). -/
def upsertTracksStep (ts : List TrackPayload) (db : DB) : Except String DB :=
  if (ts.map (fun p => p.spotify_id)).Nodup then
    .ok (ts.foldl upsertTrackOne db)
  else
    .error "ON CONFLICT DO UPDATE command cannot affect row a second time"

/-! ## Step 2 — collect all unique artists (insertion-ordered dict) -/

/-- Python `str.split(',')` on a character list. -/
def splitOnCommaChars : List Char → List (List Char)
  | [] => [[]]
  | ',' :: rest => [] :: splitOnCommaChars rest
  | c :: rest =>
    match splitOnCommaChars rest with
    | l :: ls => (c :: l) :: ls
    | [] => [[c]]

/-- `track['artist'].split(',')`, each part `.strip()`ped, empties dropped. -/
def splitCommaStrip (s : String) : List String :=
  ((splitOnCommaChars s.toList).map (fun l => (stripChars l).asString)).filter
    (fun n => n ≠ "")

/-- The `(spotify_artist_id, name)` keys contributed by one payload in
Step 2.  In the array format the id list is padded with `None` when it is
shorter than the name list (`artist_ids[i] if i < len(artist_ids) else
None`). -/
def artistKeysOfTrack (p : TrackPayload) : List (Option String × String) :=
  match p.artists with
  | .arrays ids names => names.enum.map (fun e => (ids[e.1]?, e.2))
  | .legacy s => (splitCommaStrip s).map (fun n => (none, n))
  | .absent => []

/-- Python dict key insertion: first occurrence wins, insertion order kept. -/
def insertKeyIfAbsent (acc : List (Option String × String))
    (k : Option String × String) : List (Option String × String) :=
  if k ∈ acc then acc else acc ++ [k]

/-- The keys of the `all_artists` dict after the Step 2 loop. -/
def collectArtists (ts : List TrackPayload) : List (Option String × String) :=
  ts.foldl (fun acc p => (artistKeysOfTrack p).foldl insertKeyIfAbsent acc) []

/-! ## Step 3 — artist upserts -/

/-- One VALUES row of
`INSERT INTO artists (spotify_artist_id, name) ... ON CONFLICT
 (spotify_artist_id) DO UPDATE SET name = COALESCE(EXCLUDED.name,
 artists.name) WHERE artists.spotify_artist_id IS NOT NULL`.
The `WHERE` clause is redundant: a conflict on the `spotify_artist_id`
unique constraint only arises on rows whose id is non-null. -/
def upsertArtistSidOne (db : DB) (k : String × String) : DB :=
  if db.artists.any (fun a => a.spotify_artist_id == some k.1) then
    { db with artists := db.artists.map fun a =>
        if a.spotify_artist_id == some k.1 then
          { a with name := coalesce (some k.2) a.name }
        else a }
  else
    { db with
      artists := db.artists ++
        [{ id := db.nextArtistId, spotify_artist_id := some k.1, name := some k.2 }],
      nextArtistId := db.nextArtistId + 1 }

/-- The id-bearing rows of `artist_values`:
`[(sid, name) for (sid, name) in artist_values if sid is not None]`. -/
def sidKeys (keys : List (Option String × String)) : List (String × String) :=
  keys.filterMap fun k =>
    match k.1 with
    | some s => some (s, k.2)
    | none => none

/-- The id-keyed `execute_values` statement; duplicate ids inside one
statement abort it, as in Step 1. -/
def upsertArtistsSidStep (keys : List (Option String × String)) (db : DB) :
    Except String DB :=
  if ((sidKeys keys).map (fun k => k.1)).Nodup then
    .ok ((sidKeys keys).foldl upsertArtistSidOne db)
  else
    .error "ON CONFLICT DO UPDATE command cannot affect row a second time"

/-- Modelled from the spec: the uniqueness constraint backing
`INSERT INTO artists (name) VALUES %s ON CONFLICT DO NOTHING` lives in the
database schema, which is not under `scripts/`.  Per the spec, a name-only
artist row is inserted "if and only if no artist with that case-insensitive
name already exists", i.e. the schema enforces case-insensitive uniqueness
of artist names and the conflict is silently skipped. -/
def insertNameOnlyOne (db : DB) (n : String) : DB :=
  if db.artists.any (fun a => a.name.map pyLower == some (pyLower n)) then db
  else
    { db with
      artists := db.artists ++
        [{ id := db.nextArtistId, spotify_artist_id := none, name := some n }],
      nextArtistId := db.nextArtistId + 1 }

/-- `name_only_artists = [(name,) for (sid, name) in artist_values if sid is None]`. -/
def nameOnlyKeys (keys : List (Option String × String)) : List String :=
  keys.filterMap fun k =>
    match k.1 with
    | some _ => none
    | none => some k.2

/-- The name-only insert statement (rows processed in order; a row
conflicting with an earlier row of the same statement is also skipped). -/
def insertNameOnlyStep (keys : List (Option String × String)) (db : DB) : DB :=
  (nameOnlyKeys keys).foldl insertNameOnlyOne db

/-! ## Dict helpers (Python dict as insertion-ordered assoc list) -/

def dictInsert {κ : Type} [DecidableEq κ] (d : List (κ × Nat)) (k : κ) (v : Nat) :
    List (κ × Nat) :=
  if d.any (fun e => e.1 == k) then
    d.map (fun e => if e.1 == k then (k, v) else e)
  else d ++ [(k, v)]

def dictGet {κ : Type} [DecidableEq κ] (d : List (κ × Nat)) (k : κ) : Option Nat :=
  (d.find? (fun e => e.1 == k)).map (fun e => e.2)

/-! ## Step 4 — artist lookup
`SELECT id, spotify_artist_id, name FROM artists
 WHERE spotify_artist_id = ANY(%s) OR LOWER(name) = ANY(%s)`
followed by the Python loop building `artist_lookup`. -/

/-- The `WHERE` predicate of the Step 4 `SELECT` (a SQL `LOWER(name)`
comparison is simply false on a NULL name). -/
def artistRowSelected (sids : List String) (namesLower : List String)
    (a : ArtistRow) : Bool :=
  (match a.spotify_artist_id with
   | some s => s ∈ sids
   | none => false) ||
  (match a.name with
   | some n => pyLower n ∈ namesLower
   | none => false)

/-- The Python loop over the selected rows.  `if spotify_id:` is string
truthiness (NULL or empty string both fail); `name.lower()` raises
`AttributeError` when `name` is NULL, which aborts the batch. -/
def buildArtistLookup (keys : List (Option String × String))
    (artists : List ArtistRow) :
    Except String (List ((Option String × String) × Nat)) :=
  let all_spotify_ids := keys.filterMap (fun k => k.1)
  let namesLower := keys.map (fun k => pyLower k.2)
  let rows := artists.filter (artistRowSelected all_spotify_ids namesLower)
  rows.foldlM
    (fun acc a =>
      match a.name with
      | none => .error "AttributeError: NoneType object has no attribute lower"
      | some nm =>
        let acc1 :=
          match a.spotify_artist_id with
          | some s => if s ≠ "" then dictInsert acc (some s, nm) a.id else acc
          | none => acc
        .ok (dictInsert acc1 (none, pyLower nm) a.id))
    ([] : List ((Option String × String) × Nat))

/-! ## Step 5 — track id lookup
`SELECT id, spotify_id FROM tracks WHERE spotify_id IN (...)`, collected as
`{row[1]: row[0] for row in cursor.fetchall()}`. -/

/-- The `(spotify_id, id)` projection of the `tracks` table. -/
def trackPairs (tracks : List TrackRow) : List (String × Nat) :=
  tracks.map (fun r => (r.spotify_id, r.id))

def buildTrackIdLookup (ts : List TrackPayload) (tracks : List TrackRow) :
    List (String × Nat) :=
  let spotify_ids := ts.map (fun p => p.spotify_id)
  ((trackPairs tracks).filter (fun e => e.1 ∈ spotify_ids)).foldl
    (fun d e => dictInsert d e.1 e.2) []

/-! ## Step 6 — track_artists association values -/

/-- The per-track artist list of Step 6.  Unlike Step 2, the array format
uses `zip(track['artist_ids'], track['artist_names'])`, which truncates to
the shorter list. -/
def artistListOfTrack (p : TrackPayload) : List (Option String × String) :=
  match p.artists with
  | .arrays ids names => (ids.zip names).map (fun e => (some e.1, e.2))
  | .legacy s => (splitCommaStrip s).map (fun n => (none, n))
  | .absent => []

/-- Step 6 value collection.  Internal ids are ≥ 1, so the Python
truthiness tests `if not track_id` / `if not artist_id` coincide with
option-emptiness here. -/
def buildTrackArtistValues (ts : List TrackPayload)
    (tlook : List (String × Nat))
    (alook : List ((Option String × String) × Nat)) : List TrackArtistRow :=
  ts.foldl
    (fun acc p =>
      match dictGet tlook p.spotify_id with
      | none => acc
      | some track_id =>
        (artistListOfTrack p).enum.foldl
          (fun acc2 e =>
            let artist_id :=
              match dictGet alook e.2 with
              | some a => some a
              | none => dictGet alook (none, pyLower e.2.2)
            match artist_id with
            | some a => acc2 ++ [⟨track_id, a, e.1 + 1⟩]
            | none => acc2)
          acc)
    []

/-- One VALUES row of
`INSERT INTO track_artists ... ON CONFLICT (track_id, artist_id) DO NOTHING`
(rows of the same statement are processed in order, so a later row may also
conflict with an earlier one and be skipped). -/
def insertTrackArtistOne (db : DB) (v : TrackArtistRow) : DB :=
  if db.track_artists.any
      (fun r => r.track_id == v.track_id && r.artist_id == v.artist_id) then db
  else { db with track_artists := db.track_artists ++ [v] }

def insertTrackArtistsStep (vs : List TrackArtistRow) (db : DB) : DB :=
  vs.foldl insertTrackArtistOne db

/-! ## Step 7 — pack_tracks links -/

/-- `[(pack_id, track_id_lookup[t['spotify_id']], i + 1) for i, t in
enumerate(tracks) if t['spotify_id'] in track_id_lookup]`. -/
def buildLinkValues (pack_id : String) (ts : List TrackPayload)
    (tlook : List (String × Nat)) : List PackTrackRow :=
  ts.enum.filterMap fun e =>
    (dictGet tlook e.2.spotify_id).map fun track_id =>
      ⟨pack_id, track_id, e.1 + 1⟩

/-- One VALUES row of
`INSERT INTO pack_tracks ... ON CONFLICT (pack_id, track_id) DO NOTHING`. -/
def insertPackTrackOne (db : DB) (v : PackTrackRow) : DB :=
  if db.pack_tracks.any
      (fun r => r.pack_id == v.pack_id && r.track_id == v.track_id) then db
  else { db with pack_tracks := db.pack_tracks ++ [v] }

def insertPackTracksStep (vs : List PackTrackRow) (db : DB) : DB :=
  vs.foldl insertPackTrackOne db

/-! ## The batch body and the transaction wrapper -/

/-- Everything `add_tracks_to_pack` does inside the `with
get_db_connection()` block, as a pure transformation of the connection's
uncommitted view of the store.  Returns the new view and the function's
return value `len(link_values)`. -/
def addTracksBody (pack_id : String) (ts : List TrackPayload) (db : DB) :
    Except String (DB × Nat) :=
  match upsertTracksStep ts db with
  | .error e => .error e
  | .ok db1 =>
    let keys := collectArtists ts
    match upsertArtistsSidStep keys db1 with
    | .error e => .error e
    | .ok db2 =>
      let db3 := insertNameOnlyStep keys db2
      match buildArtistLookup keys db3.artists with
      | .error e => .error e
      | .ok alook =>
        let tlook := buildTrackIdLookup ts db3.tracks
        let tavs := buildTrackArtistValues ts tlook alook
        let db4 := insertTrackArtistsStep tavs db3
        let links := buildLinkValues pack_id ts tlook
        .ok (insertPackTracksStep links db4, links.length)

/-- `get_db_connection`: yield the connection to the body, `commit()` on
normal completion, `rollback()` (discarding the uncommitted view) and
re-raise on any exception. -/
def withTransaction (body : DB → Except String (DB × Nat)) (db : DB) :
    DB × Except String Nat :=
  match body db with
  | .ok (db2, n) => (db2, .ok n)
  | .error e => (db, .error e)

/-- `add_tracks_to_pack(pack_id, tracks)`.  The `databaseUrl` argument
models the `DATABASE_URL` environment variable read by
`get_db_connection`; the empty-batch early return happens before any
connection is opened. -/
def add_tracks_to_pack (databaseUrl : Option String) (pack_id : String)
    (ts : List TrackPayload) (db : DB) : DB × Except String Nat :=
  if ts.isEmpty then (db, .ok 0)
  else
    match databaseUrl with
    | none => (db, .error "DATABASE_URL environment variable not set")
    | some _ => withTransaction (addTracksBody pack_id ts) db

/-- The committed store after one invocation of `add_tracks_to_pack`
(projection helper used to state re-run properties). -/
def runPack (url pack_id : String) (ts : List TrackPayload) (db : DB) : DB :=
  (add_tracks_to_pack (some url) pack_id ts db).1

/-- The intermediate connection state of `add_tracks_to_pack` after
Steps 1–3 (track upsert, id-keyed artist upsert, name-only artist insert),
used to decompose the body in re-run lemmas. -/
def dbAfterArtists (ts : List TrackPayload) (db : DB) : DB :=
  insertNameOnlyStep (collectArtists ts)
    ((sidKeys (collectArtists ts)).foldl upsertArtistSidOne
      (ts.foldl upsertTrackOne db))

/-! ## scripts/utils/spotify.py — artist matching and batch fetch -/

/-- A search-result artist dict.  `followers` models
`a.get('followers', {}).get('total', 0)`: a missing field reads as 0. -/
structure SpotifyArtist where
  name : String
  followers : Option Nat
deriving DecidableEq

def followersTotal (a : SpotifyArtist) : Nat :=
  a.followers.getD 0

/-- Stable insertion step for Python `sorted(..., key=followers,
reverse=True)`: an element goes before the first element whose key is not
larger, so equal keys keep their original relative order. -/
def insertByFollowersDesc (a : SpotifyArtist) :
    List SpotifyArtist → List SpotifyArtist
  | [] => [a]
  | b :: bs =>
    if followersTotal b ≤ followersTotal a then a :: b :: bs
    else b :: insertByFollowersDesc a bs

def sortByFollowersDesc (l : List SpotifyArtist) : List SpotifyArtist :=
  l.foldr insertByFollowersDesc []

/-- `search_artist_by_name`: the API call may raise (modelled as the
`Except` input); the handler logs and returns `[]`.  On success the items
are sorted by follower count, descending. -/
def search_artist_by_name (apiItems : Except String (List SpotifyArtist)) :
    List SpotifyArtist :=
  match apiItems with
  | .error _ => []
  | .ok items => sortByFollowersDesc items

/-- Python `max(l, key=followers)` on a list: the first element attaining
the maximal key (later elements replace only when strictly greater). -/
def pyMaxByFollowers : List SpotifyArtist → Option SpotifyArtist
  | [] => none
  | x :: xs =>
    some (xs.foldl
      (fun acc y => if followersTotal acc < followersTotal y then y else acc) x)

/-- `get_best_artist_match(name)` with the raw search response passed in. -/
def get_best_artist_match (name : String)
    (apiItems : Except String (List SpotifyArtist)) : Option SpotifyArtist :=
  let results := search_artist_by_name apiItems
  if results.isEmpty then none
  else
    let exact_matches :=
      results.filter (fun a => pyLower a.name == pyLower name)
    if exact_matches.isEmpty then results.head?
    else pyMaxByFollowers exact_matches

/-- A (possibly null) track dict from the `/tracks` batch endpoint. -/
structure RawApiTrack where
  id : String
  popularity : Option Int
  isrc : Option String
deriving DecidableEq

/-- One element of `get_tracks_batch`'s result list. -/
structure TrackBatchData where
  spotify_id : String
  popularity : Option Int
  isrc : Option String
deriving DecidableEq

/-- `get_tracks_batch(spotify_ids)`.  The network call is the `fetch`
argument; its result list may contain `none` for unavailable tracks, which
are skipped.  A raised fetch error is caught and turned into `[]`. -/
def get_tracks_batch
    (fetch : List String → Except String (List (Option RawApiTrack)))
    (spotify_ids : List String) : Except String (List TrackBatchData) :=
  if spotify_ids.isEmpty then .ok []
  else if spotify_ids.length > 50 then .error "Maximum 50 track IDs per request"
  else
    match fetch spotify_ids with
    | .error _ => .ok []
    | .ok raw =>
      .ok (raw.filterMap (fun t =>
        t.map (fun tr => ⟨tr.id, tr.popularity, tr.isrc⟩)))

/-! ## scripts/utils/parser.py — `parse_track_list`

The regex `(?:This Episode's )?Track ?List:?\s*\n(.*?)(?:\n\n|$)` with
`IGNORECASE | DOTALL` is embedded as an explicit leftmost matcher: the
header literal (both optional parts tried greedily), then `\s*\n` (greedy
with backtracking: the last newline of the whitespace run), then the lazy
capture up to the first blank line or the end of the string. -/

/-- Case-insensitive literal match, returning the rest of the input. -/
def matchCI : List Char → List Char → Option (List Char)
  | [], s => some s
  | _ :: _, [] => none
  | p :: ps, c :: cs => if p.toLower = c.toLower then matchCI ps cs else none

/-- The optional literal `This Episode's ` (apostrophe written as its code
point to keep the embedding plain ASCII). -/
def episodePrefixPat : List Char :=
  "this episode".toList ++ [Char.ofNat 39] ++ "s ".toList

/-- Greedy `\s*` followed by a mandatory `\n`, with backtracking: consume
up to the last newline inside the leading whitespace run. -/
def lastNlAtOrBelow (s : List Char) : Nat → Option Nat
  | 0 => if s[0]? = some '\n' then some 0 else none
  | j + 1 => if s[j + 1]? = some '\n' then some (j + 1) else lastNlAtOrBelow s j

def matchWsNl (s : List Char) : Option (List Char) :=
  let k := (s.takeWhile isPySpace).length
  match lastNlAtOrBelow s k with
  | some j => some (s.drop (j + 1))
  | none => none

/-- Try the header pattern anchored at the start of `s`; on success return
the input suffix where the capture group starts. -/
def matchHeaderAt (s : List Char) : Option (List Char) :=
  let starts :=
    match matchCI episodePrefixPat s with
    | some r => [r, s]
    | none => [s]
  starts.findSome? fun s1 =>
    (matchCI "track".toList s1).bind fun s2 =>
      let afterSpace :=
        match s2 with
        | ' ' :: r => [r, s2]
        | _ => [s2]
      afterSpace.findSome? fun s3 =>
        (matchCI "list".toList s3).bind fun s4 =>
          let afterColon :=
            match s4 with
            | ':' :: r => [r, s4]
            | _ => [s4]
          afterColon.findSome? matchWsNl

/-- `re.search`: leftmost position at which the header matches. -/
def searchHeader : List Char → Option (List Char)
  | [] => none
  | c :: rest =>
    match matchHeaderAt (c :: rest) with
    | some r => some r
    | none => searchHeader rest

/-- The lazy capture `(.*?)(?:\n\n|$)` under DOTALL: everything up to the
first blank line, or to the end when there is none. -/
def captureSection : List Char → List Char
  | '\n' :: '\n' :: _ => []
  | c :: rest => c :: captureSection rest
  | [] => []

/-- Python `str.split('\n')`. -/
def splitLinesChars : List Char → List (List Char)
  | [] => [[]]
  | '\n' :: rest => [] :: splitLinesChars rest
  | c :: rest =>
    match splitLinesChars rest with
    | l :: ls => (c :: l) :: ls
    | [] => [[c]]

/-- Python `line.split(sep, 1)` when the separator occurs: the pieces
around the first occurrence; `none` when it does not occur. -/
def splitOnceSep (sep : List Char) : List Char → Option (List Char × List Char)
  | [] => none
  | c :: rest =>
    if sep.isPrefixOf (c :: rest) then some ([], (c :: rest).drop sep.length)
    else
      match splitOnceSep sep rest with
      | some e => some (c :: e.1, e.2)
      | none => none

structure ParsedTrack where
  title : String
  artist : String
  raw : String
deriving DecidableEq

/-- The body of the per-line loop of `parse_track_list`, threading the
accumulated tracks and the emitted warnings.  A line with no ` - `
separator warns; a line whose title or artist strips to empty is skipped
silently. -/
def processLine (acc : List ParsedTrack × List String) (rawLine : List Char) :
    List ParsedTrack × List String :=
  let line := stripChars rawLine
  if line.isEmpty then acc
  else if "Watch more".toList.isPrefixOf line
      || "http".toList.isPrefixOf line
      || "#".toList.isPrefixOf line then acc
  else
    match splitOnceSep " - ".toList line with
    | some e =>
      let title := stripChars e.1
      let artist := stripChars e.2
      if title.isEmpty || artist.isEmpty then acc
      else (acc.1 ++ [⟨title.asString, artist.asString, line.asString⟩], acc.2)
    | none => (acc.1, acc.2 ++ ["Warning: Could not parse line: " ++ line.asString])

/-- `parse_track_list(description)`, returning the parsed tracks and the
warnings printed along the way (the missing-section warning text is
abbreviated to stay plain ASCII). -/
def parse_track_list (description : String) :
    List ParsedTrack × List String :=
  match searchHeader description.toList with
  | none => ([], ["Warning: Could not find Track List section in description"])
  | some rest =>
    let track_list_text := captureSection rest
    let lines := splitLinesChars (stripChars track_list_text)
    lines.foldl processLine ([], [])

/-! ## Concrete fixtures used by counterexamples and witnesses -/

def c1stored : TrackRow :=
  { id := 1, spotify_id := "sp", title := "Old", album_name := some "Y",
    album_image_url := none, release_year := some 1999,
    spotify_popularity := none, isrc := none }

def c1db : DB := { emptyDB with tracks := [c1stored], nextTrackId := 2 }

def c1payload : TrackPayload :=
  { spotify_id := "sp", title := "New", album_name := some "Z",
    album_image_url := some "X", release_year := none }

def c3t1 : TrackPayload :=
  { spotify_id := "s1", title := "T1", artists := .arrays ["A1"] ["Bob"] }

def c3t2 : TrackPayload :=
  { spotify_id := "s2", title := "T2", artists := .legacy "bob" }

def c3state : DB := (add_tracks_to_pack (some "url") "pack" [c3t1, c3t2] emptyDB).1

def c4db : DB :=
  { emptyDB with
    artists := [{ id := 1, spotify_artist_id := some "A1", name := some "Bob" }],
    nextArtistId := 2 }

def c5m1 : TrackPayload :=
  { spotify_id := "m1", title := "M1", artists := .legacy "Madonna" }

def c5m2 : TrackPayload :=
  { spotify_id := "m2", title := "M2", artists := .legacy "madonna" }

def c6payload : TrackPayload := { spotify_id := "s", title := "t" }

def c9description : String :=
  "Track List:\nSong A - Artist A\nbadline\nSong B - Artist B\n\n"

end Trackstar

namespace Trackstar

/-! # Theorems -/

/-- C1 (amended): for a payload whose `spotify_id` already exists in
storage, the upsert updates the title unconditionally and sets every
optional field to the incoming value whenever the incoming value is
non-null — even when the stored value is non-null — while a null incoming
value leaves the stored value untouched (`COALESCE(EXCLUDED.col,
tracks.col)`). -/
theorem c1_track_upsert_merge (p : TrackPayload) (db : DB) (r : TrackRow)
    (hr : r ∈ db.tracks) (hsid : r.spotify_id = p.spotify_id) :
    ∃ r' ∈ (upsertTrackOne db p).tracks,
      r'.id = r.id ∧ r'.spotify_id = r.spotify_id ∧
      r'.title = p.title ∧
      (∀ v, p.album_name = some v → r'.album_name = some v) ∧
      (p.album_name = none → r'.album_name = r.album_name) ∧
      (∀ v, p.album_image_url = some v → r'.album_image_url = some v) ∧
      (p.album_image_url = none → r'.album_image_url = r.album_image_url) ∧
      (∀ v, p.release_year = some v → r'.release_year = some v) ∧
      (p.release_year = none → r'.release_year = r.release_year) ∧
      (∀ v, p.spotify_popularity = some v → r'.spotify_popularity = some v) ∧
      (p.spotify_popularity = none → r'.spotify_popularity = r.spotify_popularity) ∧
      (∀ v, p.isrc = some v → r'.isrc = some v) ∧
      (p.isrc = none → r'.isrc = r.isrc) := by
  have hany : db.tracks.any (fun t => t.spotify_id == p.spotify_id) = true :=
    List.any_eq_true.2 ⟨r, hr, by simp [hsid]⟩
  refine ⟨mergeTrackRow r p, ?_, ?_⟩
  · simp only [upsertTrackOne, hany, if_true]
    exact List.mem_map.2 ⟨r, hr, by simp [hsid]⟩
  · refine ⟨rfl, rfl, rfl, ?_, ?_, ?_, ?_, ?_, ?_, ?_, ?_, ?_, ?_⟩ <;>
      first
        | (intro v h; simp [mergeTrackRow, coalesce, h])
        | (intro h; simp [mergeTrackRow, coalesce, h])

/-- C1 witness: the merge theorem applied at a concrete stored row with
`album_name = "Y"`, `release_year = 1999` and a payload with
`album_name = "Z"`, `release_year = null`. -/
theorem c1_track_upsert_merge_witness :
    ∃ r' ∈ (upsertTrackOne c1db c1payload).tracks,
      r'.title = "New" ∧ r'.album_name = some "Z" ∧
      r'.album_image_url = some "X" ∧ r'.release_year = some 1999 := by
  obtain ⟨r', hmem, -, -, ht, han, -, hai, -, -, hry, -, -, -, -⟩ :=
    c1_track_upsert_merge c1payload c1db c1stored (by decide) (by decide)
  refine ⟨r', hmem, ?_, ?_, ?_, ?_⟩
  · exact ht
  · exact han "Z" rfl
  · exact hai "X" rfl
  · exact hry rfl

/-- C1 counterexample: with stored `album_name = "Y"` (non-null) and
incoming `album_name = "Z"`, the upsert replaces the stored value — the
claim's "a stored non-null optional field is never replaced" is false. -/
theorem c1_track_upsert_counterexample :
    c1db.tracks.map (fun r => r.album_name) = [some "Y"] ∧
    (upsertTrackOne c1db c1payload).tracks.map (fun r => r.album_name) =
      [some "Z"] ∧
    some "Z" ≠ some "Y" := by decide

/-- C3: in a batch containing `(id="A1", name="Bob")` and a name-only
`"bob"`, the identifier-bearing entry wins: only one artist row is stored,
the resolver lookup maps both the identifier key and the lowercased-name
key to that row, and both tracks link to it. -/
theorem c3_identifier_first_resolution :
    c3state.artists =
      [{ id := 1, spotify_artist_id := some "A1", name := some "Bob" }] ∧
    buildArtistLookup (collectArtists [c3t1, c3t2]) c3state.artists =
      .ok [((some "A1", "Bob"), 1), ((none, "bob"), 1)] ∧
    c3state.track_artists =
      [{ track_id := 1, artist_id := 1, position := 1 },
       { track_id := 2, artist_id := 1, position := 1 }] :=
  ⟨by decide, by rfl, by decide⟩

/-- C4 (amended): for an artist upsert keyed by an already-known external
identifier, the stored name is always overwritten with the incoming name:
`COALESCE(EXCLUDED.name, artists.name)` prefers the incoming value, and
incoming names from the batch are non-null strings, so a stored name never
survives a mismatch. -/
theorem c4_artist_name_overwrite (db : DB) (s n : String) (a : ArtistRow)
    (ha : a ∈ db.artists) (hsid : a.spotify_artist_id = some s) :
    ∃ a' ∈ (upsertArtistSidOne db (s, n)).artists,
      a'.id = a.id ∧ a'.spotify_artist_id = a.spotify_artist_id ∧
      a'.name = some n := by
  have hany : db.artists.any (fun x => x.spotify_artist_id == some s) = true :=
    List.any_eq_true.2 ⟨a, ha, by simp [hsid]⟩
  refine ⟨{ a with name := coalesce (some n) a.name }, ?_, rfl, rfl, rfl⟩
  simp only [upsertArtistSidOne, hany, if_true]
  exact List.mem_map.2 ⟨a, ha, by simp [hsid]⟩

/-- C4 witness: the overwrite theorem applied at a stored artist
`("A1", "Bob")` receiving incoming name `"Bobby"`. -/
theorem c4_artist_name_overwrite_witness :
    ∃ a' ∈ (upsertArtistSidOne c4db ("A1", "Bobby")).artists,
      a'.id = 1 ∧ a'.name = some "Bobby" := by
  obtain ⟨a', hmem, hid, -, hn⟩ :=
    c4_artist_name_overwrite c4db "A1" "Bobby"
      { id := 1, spotify_artist_id := some "A1", name := some "Bob" }
      (by decide) (by decide)
  exact ⟨a', hmem, hid, hn⟩

/-- C4 counterexample: stored name `"Bob"` under identifier `"A1"`, and an
incoming payload `("A1", "Bobby")`: the stored name is overwritten, so
"when the stored name is present ... the stored name is not overwritten"
is false. -/
theorem c4_artist_name_counterexample :
    c4db.artists.map (fun a => a.name) = [some "Bob"] ∧
    (upsertArtistSidOne c4db ("A1", "Bobby")).artists.map (fun a => a.name) =
      [some "Bobby"] ∧
    some "Bobby" ≠ some "Bob" := by decide

/-- C5 (amended): the in-memory collection pass keys artists by the
case-sensitive pair `(spotify_artist_id, name)`, so `"Madonna"` and
`"madonna"` stay two distinct keys there; the collapse to a single stored
artist happens at insert time, where the second name-only row is skipped
by the case-insensitive conflict, so at most one record is stored. -/
theorem c5_name_only_dedup :
    collectArtists [c5m1, c5m2] = [(none, "Madonna"), (none, "madonna")] ∧
    (add_tracks_to_pack (some "url") "pack" [c5m1, c5m2] emptyDB).1.artists =
      [{ id := 1, spotify_artist_id := none, name := some "Madonna" }] := by
  decide

/-- C5 counterexample: the batch's in-memory collection pass produces two
artist keys for `"Madonna"`/`"madonna"`, not the single key the claim
asserts. -/
theorem c5_name_only_dedup_counterexample :
    (collectArtists [c5m1, c5m2]).length = 2 ∧
    (collectArtists [c5m1, c5m2]).length ≠ 1 := by decide

/-- C6: a non-empty upsert batch runs inside `get_db_connection`'s
transaction: an exception anywhere in the body rolls every write back
(the committed store is exactly the pre-batch store and the error is
re-raised), while normal completion commits all of the body's writes
together. -/
theorem c6_batch_transaction (url pack_id : String) (ts : List TrackPayload)
    (db : DB) (hne : ts ≠ []) :
    add_tracks_to_pack (some url) pack_id ts db =
      withTransaction (addTracksBody pack_id ts) db ∧
    (∀ e, addTracksBody pack_id ts db = .error e →
      add_tracks_to_pack (some url) pack_id ts db = (db, .error e)) ∧
    (∀ db2 n, addTracksBody pack_id ts db = .ok (db2, n) →
      add_tracks_to_pack (some url) pack_id ts db = (db2, .ok n)) := by
  have hempty : ts.isEmpty = false := by
    cases ts with
    | nil => exact absurd rfl hne
    | cons a l => rfl
  refine ⟨by simp [add_tracks_to_pack, hempty], ?_, ?_⟩
  · intro e he
    simp [add_tracks_to_pack, hempty, withTransaction, he]
  · intro db2 n hok
    simp [add_tracks_to_pack, hempty, withTransaction, hok]

/-- C6 witness: a batch that raises mid-body (duplicate `spotify_id`
VALUES rows abort the track upsert statement) leaves the store exactly as
it was and surfaces the error. -/
theorem c6_batch_transaction_witness :
    add_tracks_to_pack (some "url") "pack" [c6payload, c6payload] emptyDB =
      (emptyDB,
       .error "ON CONFLICT DO UPDATE command cannot affect row a second time") := by
  exact (c6_batch_transaction "url" "pack" [c6payload, c6payload] emptyDB
    (by decide)).2.1 _ (by rfl)

/-- Membership is preserved by one descending insertion. -/
theorem mem_insertByFollowersDesc {x a : SpotifyArtist} {l : List SpotifyArtist} :
    x ∈ insertByFollowersDesc a l ↔ x = a ∨ x ∈ l := by
  induction l with
  | nil => simp [insertByFollowersDesc]
  | cons b bs ih =>
    by_cases h : followersTotal b ≤ followersTotal a
    · simp [insertByFollowersDesc, h]
    · simp only [insertByFollowersDesc, if_neg h, List.mem_cons, ih]
      tauto

/-- The sort is a permutation in the membership sense. -/
theorem mem_sortByFollowersDesc {x : SpotifyArtist} {l : List SpotifyArtist} :
    x ∈ sortByFollowersDesc l ↔ x ∈ l := by
  induction l with
  | nil => simp [sortByFollowersDesc]
  | cons b bs ih =>
    simp only [sortByFollowersDesc, List.foldr_cons] at ih ⊢
    rw [mem_insertByFollowersDesc, ih, List.mem_cons]

/-- Descending insertion preserves descending (pairwise ≥) order. -/
theorem pairwise_insertByFollowersDesc {a : SpotifyArtist} {l : List SpotifyArtist}
    (h : l.Pairwise (fun x y => followersTotal y ≤ followersTotal x)) :
    (insertByFollowersDesc a l).Pairwise
      (fun x y => followersTotal y ≤ followersTotal x) := by
  induction l with
  | nil => simp [insertByFollowersDesc]
  | cons b bs ih =>
    rw [List.pairwise_cons] at h
    by_cases hba : followersTotal b ≤ followersTotal a
    · rw [insertByFollowersDesc, if_pos hba, List.pairwise_cons]
      refine ⟨?_, List.pairwise_cons.2 h⟩
      intro x hx
      rcases List.mem_cons.1 hx with hxb | hxbs
      · exact hxb ▸ hba
      · exact le_trans (h.1 x hxbs) hba
    · rw [insertByFollowersDesc, if_neg hba, List.pairwise_cons]
      refine ⟨?_, ih h.2⟩
      intro x hx
      rcases mem_insertByFollowersDesc.1 hx with hxa | hxbs
      · exact hxa ▸ le_of_not_le hba
      · exact h.1 x hxbs

/-- The sorted result is descending by follower count. -/
theorem pairwise_sortByFollowersDesc (l : List SpotifyArtist) :
    (sortByFollowersDesc l).Pairwise
      (fun x y => followersTotal y ≤ followersTotal x) := by
  induction l with
  | nil => simp [sortByFollowersDesc]
  | cons b bs ih => exact pairwise_insertByFollowersDesc ih

/-- Python `max(key=followers)`: the result is in the list and dominates
every element, also dominating the fold's seed. -/
theorem foldl_pyMax_spec (xs : List SpotifyArtist) (acc : SpotifyArtist) :
    (xs.foldl
        (fun a y => if followersTotal a < followersTotal y then y else a)
        acc = acc ∨
      xs.foldl
        (fun a y => if followersTotal a < followersTotal y then y else a)
        acc ∈ xs) ∧
    followersTotal acc ≤
      followersTotal
        (xs.foldl
          (fun a y => if followersTotal a < followersTotal y then y else a)
          acc) ∧
    ∀ y ∈ xs,
      followersTotal y ≤
        followersTotal
          (xs.foldl
            (fun a y => if followersTotal a < followersTotal y then y else a)
            acc) := by
  induction xs generalizing acc with
  | nil => simp
  | cons z zs ih =>
    simp only [List.foldl_cons]
    by_cases h : followersTotal acc < followersTotal z
    · rw [if_pos h]
      obtain ⟨hmem, hdom, hall⟩ := ih z
      refine ⟨?_, le_trans (le_of_lt h) hdom, ?_⟩
      · rcases hmem with h1 | h1
        · exact Or.inr (by rw [h1]; exact List.mem_cons_self z zs)
        · exact Or.inr (List.mem_cons_of_mem z h1)
      · intro y hy
        rcases List.mem_cons.1 hy with hyz | hyzs
        · rw [hyz]; exact hdom
        · exact hall y hyzs
    · rw [if_neg h]
      obtain ⟨hmem, hdom, hall⟩ := ih acc
      refine ⟨?_, hdom, ?_⟩
      · rcases hmem with h1 | h1
        · exact Or.inl h1
        · exact Or.inr (List.mem_cons_of_mem z h1)
      · intro y hy
        rcases List.mem_cons.1 hy with hyz | hyzs
        · rw [hyz]; exact le_trans (le_of_not_lt h) hdom
        · exact hall y hyzs

/-- Specification of `pyMaxByFollowers` on a list it succeeds on. -/
theorem pyMaxByFollowers_spec {l : List SpotifyArtist} {x : SpotifyArtist}
    (h : pyMaxByFollowers l = some x) :
    x ∈ l ∧ ∀ y ∈ l, followersTotal y ≤ followersTotal x := by
  cases l with
  | nil => simp [pyMaxByFollowers] at h
  | cons z zs =>
    simp only [pyMaxByFollowers, Option.some.injEq] at h
    obtain ⟨hmem, hdom, hall⟩ := foldl_pyMax_spec zs z
    rw [h] at hmem hdom hall
    constructor
    · rcases hmem with h1 | h1
      · rw [h1]; exact List.mem_cons_self z zs
      · exact List.mem_cons_of_mem z h1
    · intro y hy
      rcases List.mem_cons.1 hy with hyz | hyzs
      · rw [hyz]; exact hdom
      · exact hall y hyzs

/-- C7: over any raw search-result list, `get_best_artist_match` returns
`None` on an empty list; when a case-insensitive name match exists it
returns such a match with the highest follower count among the matches;
otherwise it returns a most-followed candidate among all results. -/
theorem c7_best_artist_match (name : String) (items : List SpotifyArtist) :
    (items = [] → get_best_artist_match name (.ok items) = none) ∧
    ((∃ a ∈ items, pyLower a.name = pyLower name) →
      ∃ b, get_best_artist_match name (.ok items) = some b ∧
        b ∈ items ∧ pyLower b.name = pyLower name ∧
        ∀ a ∈ items, pyLower a.name = pyLower name →
          followersTotal a ≤ followersTotal b) ∧
    (items ≠ [] → (∀ a ∈ items, pyLower a.name ≠ pyLower name) →
      ∃ b, get_best_artist_match name (.ok items) = some b ∧
        b ∈ items ∧ ∀ a ∈ items, followersTotal a ≤ followersTotal b) := by
  refine ⟨?_, ?_, ?_⟩
  · intro h
    subst h
    rfl
  · intro ⟨a, ha, haeq⟩
    have hamem : a ∈ sortByFollowersDesc items := mem_sortByFollowersDesc.2 ha
    have hne : (sortByFollowersDesc items).isEmpty = false := by
      cases hs : sortByFollowersDesc items with
      | nil => rw [hs] at hamem; simp at hamem
      | cons x xs => rfl
    have hafil : a ∈ (sortByFollowersDesc items).filter
        (fun x => pyLower x.name == pyLower name) :=
      List.mem_filter.2 ⟨hamem, by simp [haeq]⟩
    have hfilne : ((sortByFollowersDesc items).filter
        (fun x => pyLower x.name == pyLower name)).isEmpty = false := by
      cases hs : (sortByFollowersDesc items).filter
          (fun x => pyLower x.name == pyLower name) with
      | nil => rw [hs] at hafil; simp at hafil
      | cons x xs => rfl
    have hmax : ∃ b, pyMaxByFollowers ((sortByFollowersDesc items).filter
        (fun x => pyLower x.name == pyLower name)) = some b := by
      cases hs : (sortByFollowersDesc items).filter
          (fun x => pyLower x.name == pyLower name) with
      | nil => rw [hs] at hafil; simp at hafil
      | cons x xs => exact ⟨_, rfl⟩
    obtain ⟨b, hb⟩ := hmax
    obtain ⟨hbmem, hbdom⟩ := pyMaxByFollowers_spec hb
    refine ⟨b, ?_, ?_, ?_, ?_⟩
    · simp only [get_best_artist_match, search_artist_by_name, hne,
        Bool.false_eq_true, if_false, hfilne, hb]
    · exact mem_sortByFollowersDesc.1 (List.mem_filter.1 hbmem).1
    · have := (List.mem_filter.1 hbmem).2
      simpa using this
    · intro x hx hxeq
      exact hbdom x (List.mem_filter.2 ⟨mem_sortByFollowersDesc.2 hx, by simp [hxeq]⟩)
  · intro hne hall
    have hfil : (sortByFollowersDesc items).filter
        (fun x => pyLower x.name == pyLower name) = [] := by
      rw [List.filter_eq_nil_iff]
      intro x hx
      simp only [beq_iff_eq]
      exact hall x (mem_sortByFollowersDesc.1 hx)
    cases hs : sortByFollowersDesc items with
    | nil =>
      obtain ⟨x, hx⟩ := List.exists_mem_of_ne_nil items hne
      have := mem_sortByFollowersDesc.2 hx
      rw [hs] at this
      simp at this
    | cons x xs =>
      refine ⟨x, ?_, ?_, ?_⟩
      · simp only [get_best_artist_match, search_artist_by_name, hs]
        rw [hs] at hfil
        simp [hfil]
      · exact mem_sortByFollowersDesc.1 (hs ▸ List.mem_cons_self x xs)
      · intro y hy
        have hysorted : y ∈ sortByFollowersDesc items :=
          mem_sortByFollowersDesc.2 hy
        rw [hs] at hysorted
        rcases List.mem_cons.1 hysorted with hyx | hyxs
        · exact hyx ▸ le_refl _
        · have hpw := pairwise_sortByFollowersDesc items
          rw [hs, List.pairwise_cons] at hpw
          exact hpw.1 y hyxs

/-- C7 witness: for query "The Who" over results
`[{name:"The Who", followers:500}, {name:"the who", followers:900}]` the
best match is a case-insensitive match with at least 900 followers. -/
theorem c7_best_artist_match_witness :
    ∃ b, get_best_artist_match "The Who"
        (.ok [{ name := "The Who", followers := some 500 },
              { name := "the who", followers := some 900 }]) = some b ∧
      pyLower b.name = pyLower "The Who" ∧ 900 ≤ followersTotal b := by
  obtain ⟨b, hres, -, hname, hdom⟩ :=
    (c7_best_artist_match "The Who"
      [{ name := "The Who", followers := some 500 },
       { name := "the who", followers := some 900 }]).2.1
      ⟨{ name := "The Who", followers := some 500 }, by decide, by decide⟩
  refine ⟨b, hres, hname, ?_⟩
  have := hdom { name := "the who", followers := some 900 } (by decide) (by decide)
  simpa [followersTotal] using this

/-- C8: a catalog-metadata batch request with more than 50 identifiers is
rejected with an error whose outcome does not depend on the network fetch
at all, and an empty identifier list yields an empty result, likewise
without consulting the fetch. -/
theorem c8_batch_size_boundary
    (fetch fetch2 : List String → Except String (List (Option RawApiTrack)))
    (ids : List String) :
    (ids.length > 50 →
      get_tracks_batch fetch ids = .error "Maximum 50 track IDs per request" ∧
      get_tracks_batch fetch ids = get_tracks_batch fetch2 ids) ∧
    (get_tracks_batch fetch [] = .ok [] ∧
      get_tracks_batch fetch [] = get_tracks_batch fetch2 []) := by
  constructor
  · intro hgt
    have hempty : ids.isEmpty = false := by
      cases ids with
      | nil => simp at hgt
      | cons a l => rfl
    constructor <;> simp [get_tracks_batch, hempty, hgt]
  · constructor <;> simp [get_tracks_batch]

/-- C8 witness: a concrete 51-identifier request is rejected regardless of
the fetch function. -/
theorem c8_batch_size_boundary_witness :
    get_tracks_batch (fun _ => .ok []) (List.replicate 51 "x") =
      .error "Maximum 50 track IDs per request" := by
  exact ((c8_batch_size_boundary (fun _ => .ok []) (fun _ => .ok [])
    (List.replicate 51 "x")).1 (by simp)).1

/-- C9: the description `"Track List:\nSong A - Artist A\nbadline\nSong B -
Artist B\n\n"` parses to exactly the two tracks `Song A`/`Artist A` and
`Song B`/`Artist B` in order; the non-matching line `badline` produces a
warning instead of an error. -/
theorem c9_track_list_parsing :
    parse_track_list c9description =
      ([{ title := "Song A", artist := "Artist A", raw := "Song A - Artist A" },
        { title := "Song B", artist := "Artist B", raw := "Song B - Artist B" }],
       ["Warning: Could not parse line: badline"]) := by decide

/-- C10: an empty batch returns 0 and performs no storage writes at all —
the result does not even depend on a database connection being available
(`databaseUrl` may be absent), because the early return precedes
`get_db_connection`. -/
theorem c10_empty_batch_noop (databaseUrl : Option String) (pack_id : String)
    (db : DB) :
    add_tracks_to_pack databaseUrl pack_id [] db = (db, .ok 0) := rfl

/-! ## Re-run (idempotence) infrastructure for C2 -/

theorem map_eq_id_of_mem {α : Type} {f : α → α} {l : List α}
    (h : ∀ x ∈ l, f x = x) : l.map f = l := by
  induction l with
  | nil => rfl
  | cons a l ih =>
    rw [List.map_cons, h a (List.mem_cons_self a l),
      ih (fun x hx => h x (List.mem_cons_of_mem a hx))]

theorem foldl_proj {α β : Type} (f : DB → α → DB) (proj : DB → β)
    (hf : ∀ db a, proj (f db a) = proj db) (l : List α) (db : DB) :
    proj (l.foldl f db) = proj db := by
  induction l generalizing db with
  | nil => rfl
  | cons a l ih => rw [List.foldl_cons, ih, hf]

/-! Which tables each write step leaves untouched. -/

theorem upsertTrackOne_artists (db : DB) (p : TrackPayload) :
    (upsertTrackOne db p).artists = db.artists := by
  simp only [upsertTrackOne]; split <;> rfl

theorem upsertTrackOne_track_artists (db : DB) (p : TrackPayload) :
    (upsertTrackOne db p).track_artists = db.track_artists := by
  simp only [upsertTrackOne]; split <;> rfl

theorem upsertTrackOne_pack_tracks (db : DB) (p : TrackPayload) :
    (upsertTrackOne db p).pack_tracks = db.pack_tracks := by
  simp only [upsertTrackOne]; split <;> rfl

theorem upsertArtistSidOne_tracks (db : DB) (k : String × String) :
    (upsertArtistSidOne db k).tracks = db.tracks := by
  simp only [upsertArtistSidOne]; split <;> rfl

theorem upsertArtistSidOne_track_artists (db : DB) (k : String × String) :
    (upsertArtistSidOne db k).track_artists = db.track_artists := by
  simp only [upsertArtistSidOne]; split <;> rfl

theorem upsertArtistSidOne_pack_tracks (db : DB) (k : String × String) :
    (upsertArtistSidOne db k).pack_tracks = db.pack_tracks := by
  simp only [upsertArtistSidOne]; split <;> rfl

theorem insertNameOnlyOne_tracks (db : DB) (n : String) :
    (insertNameOnlyOne db n).tracks = db.tracks := by
  simp only [insertNameOnlyOne]; split <;> rfl

theorem insertNameOnlyOne_track_artists (db : DB) (n : String) :
    (insertNameOnlyOne db n).track_artists = db.track_artists := by
  simp only [insertNameOnlyOne]; split <;> rfl

theorem insertNameOnlyOne_pack_tracks (db : DB) (n : String) :
    (insertNameOnlyOne db n).pack_tracks = db.pack_tracks := by
  simp only [insertNameOnlyOne]; split <;> rfl

theorem insertTrackArtistOne_tracks (db : DB) (v : TrackArtistRow) :
    (insertTrackArtistOne db v).tracks = db.tracks := by
  simp only [insertTrackArtistOne]; split <;> rfl

theorem insertTrackArtistOne_artists (db : DB) (v : TrackArtistRow) :
    (insertTrackArtistOne db v).artists = db.artists := by
  simp only [insertTrackArtistOne]; split <;> rfl

theorem insertTrackArtistOne_pack_tracks (db : DB) (v : TrackArtistRow) :
    (insertTrackArtistOne db v).pack_tracks = db.pack_tracks := by
  simp only [insertTrackArtistOne]; split <;> rfl

theorem insertPackTrackOne_tracks (db : DB) (v : PackTrackRow) :
    (insertPackTrackOne db v).tracks = db.tracks := by
  simp only [insertPackTrackOne]; split <;> rfl

theorem insertPackTrackOne_artists (db : DB) (v : PackTrackRow) :
    (insertPackTrackOne db v).artists = db.artists := by
  simp only [insertPackTrackOne]; split <;> rfl

theorem insertPackTrackOne_track_artists (db : DB) (v : PackTrackRow) :
    (insertPackTrackOne db v).track_artists = db.track_artists := by
  simp only [insertPackTrackOne]; split <;> rfl

theorem insertNameOnlyStep_tracks (keys : List (Option String × String)) (db : DB) :
    (insertNameOnlyStep keys db).tracks = db.tracks :=
  foldl_proj _ DB.tracks insertNameOnlyOne_tracks _ db

theorem insertNameOnlyStep_track_artists (keys : List (Option String × String))
    (db : DB) : (insertNameOnlyStep keys db).track_artists = db.track_artists :=
  foldl_proj _ DB.track_artists insertNameOnlyOne_track_artists _ db

theorem insertNameOnlyStep_pack_tracks (keys : List (Option String × String))
    (db : DB) : (insertNameOnlyStep keys db).pack_tracks = db.pack_tracks :=
  foldl_proj _ DB.pack_tracks insertNameOnlyOne_pack_tracks _ db

theorem insertTrackArtistsStep_tracks (vs : List TrackArtistRow) (db : DB) :
    (insertTrackArtistsStep vs db).tracks = db.tracks :=
  foldl_proj _ DB.tracks insertTrackArtistOne_tracks _ db

theorem insertTrackArtistsStep_artists (vs : List TrackArtistRow) (db : DB) :
    (insertTrackArtistsStep vs db).artists = db.artists :=
  foldl_proj _ DB.artists insertTrackArtistOne_artists _ db

theorem insertTrackArtistsStep_pack_tracks (vs : List TrackArtistRow) (db : DB) :
    (insertTrackArtistsStep vs db).pack_tracks = db.pack_tracks :=
  foldl_proj _ DB.pack_tracks insertTrackArtistOne_pack_tracks _ db

theorem insertPackTracksStep_tracks (vs : List PackTrackRow) (db : DB) :
    (insertPackTracksStep vs db).tracks = db.tracks :=
  foldl_proj _ DB.tracks insertPackTrackOne_tracks _ db

theorem insertPackTracksStep_artists (vs : List PackTrackRow) (db : DB) :
    (insertPackTracksStep vs db).artists = db.artists :=
  foldl_proj _ DB.artists insertPackTrackOne_artists _ db

theorem insertPackTracksStep_track_artists (vs : List PackTrackRow) (db : DB) :
    (insertPackTracksStep vs db).track_artists = db.track_artists :=
  foldl_proj _ DB.track_artists insertPackTrackOne_track_artists _ db

theorem foldl_upsertTrackOne_artists (ts : List TrackPayload) (db : DB) :
    (ts.foldl upsertTrackOne db).artists = db.artists :=
  foldl_proj _ DB.artists upsertTrackOne_artists _ db

theorem foldl_upsertTrackOne_track_artists (ts : List TrackPayload) (db : DB) :
    (ts.foldl upsertTrackOne db).track_artists = db.track_artists :=
  foldl_proj _ DB.track_artists upsertTrackOne_track_artists _ db

theorem foldl_upsertTrackOne_pack_tracks (ts : List TrackPayload) (db : DB) :
    (ts.foldl upsertTrackOne db).pack_tracks = db.pack_tracks :=
  foldl_proj _ DB.pack_tracks upsertTrackOne_pack_tracks _ db

theorem foldl_upsertArtistSidOne_tracks (ks : List (String × String)) (db : DB) :
    (ks.foldl upsertArtistSidOne db).tracks = db.tracks :=
  foldl_proj _ DB.tracks upsertArtistSidOne_tracks _ db

theorem foldl_upsertArtistSidOne_track_artists (ks : List (String × String))
    (db : DB) : (ks.foldl upsertArtistSidOne db).track_artists = db.track_artists :=
  foldl_proj _ DB.track_artists upsertArtistSidOne_track_artists _ db

theorem foldl_upsertArtistSidOne_pack_tracks (ks : List (String × String))
    (db : DB) : (ks.foldl upsertArtistSidOne db).pack_tracks = db.pack_tracks :=
  foldl_proj _ DB.pack_tracks upsertArtistSidOne_pack_tracks _ db

/-! Coalesce algebra and merge fixed points. -/

theorem coalesce_idem {α : Type} (a b : Option α) :
    coalesce a (coalesce a b) = coalesce a b := by
  cases a <;> rfl

theorem coalesce_self {α : Type} (a : Option α) : coalesce a a = a := by
  cases a <;> rfl

theorem mergeTrackRow_spotify_id (r : TrackRow) (p : TrackPayload) :
    (mergeTrackRow r p).spotify_id = r.spotify_id := rfl

theorem mergeTrackRow_idem (r : TrackRow) (p : TrackPayload) :
    mergeTrackRow (mergeTrackRow r p) p = mergeTrackRow r p := by
  cases r
  simp [mergeTrackRow, coalesce_idem]

theorem mergeTrackRow_new (p : TrackPayload) (i : Nat) :
    mergeTrackRow (newTrackRow p i) p = newTrackRow p i := by
  simp [mergeTrackRow, newTrackRow, coalesce_self]

/-! Postconditions of the track upsert and its re-run fixed point. -/

theorem upsertTrackOne_exists_self (db : DB) (p : TrackPayload) :
    ∃ r ∈ (upsertTrackOne db p).tracks, r.spotify_id = p.spotify_id := by
  by_cases hany : db.tracks.any (fun t => t.spotify_id == p.spotify_id) = true
  · obtain ⟨t, ht, hts⟩ := List.any_eq_true.1 hany
    rw [beq_iff_eq] at hts
    refine ⟨mergeTrackRow t p, ?_, by rw [mergeTrackRow_spotify_id, hts]⟩
    simp only [upsertTrackOne, hany, if_true]
    exact List.mem_map.2 ⟨t, ht, by rw [if_pos (by simp [hts])]⟩
  · refine ⟨newTrackRow p db.nextTrackId, ?_, rfl⟩
    simp only [upsertTrackOne, hany, if_false]
    exact List.mem_append_right _ (List.mem_singleton.2 rfl)

theorem upsertTrackOne_exists_mono (db : DB) (q : TrackPayload) (s : String)
    (h : ∃ r ∈ db.tracks, r.spotify_id = s) :
    ∃ r ∈ (upsertTrackOne db q).tracks, r.spotify_id = s := by
  obtain ⟨r, hr, hs⟩ := h
  by_cases hany : db.tracks.any (fun t => t.spotify_id == q.spotify_id) = true
  · by_cases hrq : r.spotify_id = q.spotify_id
    · refine ⟨mergeTrackRow r q, ?_, by rw [mergeTrackRow_spotify_id, hs]⟩
      simp only [upsertTrackOne, hany, if_true]
      exact List.mem_map.2 ⟨r, hr, by rw [if_pos (by simp [hrq])]⟩
    · refine ⟨r, ?_, hs⟩
      simp only [upsertTrackOne, hany, if_true]
      exact List.mem_map.2 ⟨r, hr, by rw [if_neg (by simp [hrq])]⟩
  · refine ⟨r, ?_, hs⟩
    simp only [upsertTrackOne, hany, if_false]
    exact List.mem_append_left _ hr

theorem upsertTrackOne_merged_self (db : DB) (p : TrackPayload) :
    ∀ r ∈ (upsertTrackOne db p).tracks,
      r.spotify_id = p.spotify_id → mergeTrackRow r p = r := by
  intro r hr hsid
  by_cases hany : db.tracks.any (fun t => t.spotify_id == p.spotify_id) = true
  · simp only [upsertTrackOne, hany, if_true] at hr
    obtain ⟨t, ht, hft⟩ := List.mem_map.1 hr
    by_cases hts : t.spotify_id = p.spotify_id
    · rw [if_pos (by simp [hts])] at hft
      rw [← hft]
      exact mergeTrackRow_idem t p
    · rw [if_neg (by simp [hts])] at hft
      rw [← hft] at hsid
      exact absurd hsid hts
  · simp only [upsertTrackOne, hany, if_false] at hr
    rcases List.mem_append.1 hr with h1 | h1
    · exact absurd (List.any_eq_true.2 ⟨r, h1, by simp [hsid]⟩) hany
    · rw [List.mem_singleton.1 h1]
      exact mergeTrackRow_new p db.nextTrackId

theorem upsertTrackOne_merged_mono (db : DB) (p q : TrackPayload)
    (hq : q.spotify_id ≠ p.spotify_id)
    (h : ∀ r ∈ db.tracks, r.spotify_id = p.spotify_id → mergeTrackRow r p = r) :
    ∀ r ∈ (upsertTrackOne db q).tracks,
      r.spotify_id = p.spotify_id → mergeTrackRow r p = r := by
  intro r hr hsid
  by_cases hany : db.tracks.any (fun t => t.spotify_id == q.spotify_id) = true
  · simp only [upsertTrackOne, hany, if_true] at hr
    obtain ⟨t, ht, hft⟩ := List.mem_map.1 hr
    by_cases hts : t.spotify_id = q.spotify_id
    · rw [if_pos (by simp [hts])] at hft
      rw [← hft, mergeTrackRow_spotify_id] at hsid
      exact absurd (hts.symm.trans hsid) hq
    · rw [if_neg (by simp [hts])] at hft
      rw [← hft]
      exact h t ht (by rw [← hft] at hsid; exact hsid)
  · simp only [upsertTrackOne, hany, if_false] at hr
    rcases List.mem_append.1 hr with h1 | h1
    · exact h r h1 hsid
    · rw [List.mem_singleton.1 h1] at hsid
      exact absurd hsid hq

theorem upsertTrackOne_fix (db : DB) (p : TrackPayload)
    (hex : ∃ r ∈ db.tracks, r.spotify_id = p.spotify_id)
    (hmg : ∀ r ∈ db.tracks, r.spotify_id = p.spotify_id → mergeTrackRow r p = r) :
    upsertTrackOne db p = db := by
  obtain ⟨r0, hr0, hs0⟩ := hex
  have hany : db.tracks.any (fun t => t.spotify_id == p.spotify_id) = true :=
    List.any_eq_true.2 ⟨r0, hr0, by simp [hs0]⟩
  have hmap : db.tracks.map
      (fun t => if t.spotify_id == p.spotify_id then mergeTrackRow t p else t) =
      db.tracks := by
    apply map_eq_id_of_mem
    intro t ht
    by_cases h : t.spotify_id = p.spotify_id
    · rw [if_pos (by simp [h])]
      exact hmg t ht h
    · rw [if_neg (by simp [h])]
  simp only [upsertTrackOne, hany, if_true, hmap]

theorem foldl_upsertTrackOne_exists_mono (l : List TrackPayload) (s : String) :
    ∀ db : DB, (∃ r ∈ db.tracks, r.spotify_id = s) →
      ∃ r ∈ (l.foldl upsertTrackOne db).tracks, r.spotify_id = s := by
  induction l with
  | nil => intro db h; exact h
  | cons q rest ih =>
    intro db h
    exact ih _ (upsertTrackOne_exists_mono db q s h)

theorem foldl_upsertTrackOne_merged_mono (l : List TrackPayload) (p : TrackPayload)
    (hl : ∀ q ∈ l, q.spotify_id ≠ p.spotify_id) :
    ∀ db : DB,
      (∀ r ∈ db.tracks, r.spotify_id = p.spotify_id → mergeTrackRow r p = r) →
      ∀ r ∈ (l.foldl upsertTrackOne db).tracks,
        r.spotify_id = p.spotify_id → mergeTrackRow r p = r := by
  induction l with
  | nil => intro db h; exact h
  | cons q rest ih =>
    intro db h
    exact ih (fun x hx => hl x (List.mem_cons_of_mem q hx)) _
      (upsertTrackOne_merged_mono db p q (hl q (List.mem_cons_self q rest)) h)

theorem upsertTracks_establish (ts : List TrackPayload) :
    ∀ db : DB, (ts.map (fun p => p.spotify_id)).Nodup →
      ∀ p ∈ ts,
        (∃ r ∈ (ts.foldl upsertTrackOne db).tracks,
          r.spotify_id = p.spotify_id) ∧
        (∀ r ∈ (ts.foldl upsertTrackOne db).tracks,
          r.spotify_id = p.spotify_id → mergeTrackRow r p = r) := by
  induction ts with
  | nil => intro db _ p hp; cases hp
  | cons q rest ih =>
    intro db hnd p hp
    rw [List.map_cons, List.nodup_cons] at hnd
    rcases List.mem_cons.1 hp with hpq | hprest
    · subst hpq
      rw [List.foldl_cons]
      refine ⟨foldl_upsertTrackOne_exists_mono rest _ _
        (upsertTrackOne_exists_self db p), ?_⟩
      apply foldl_upsertTrackOne_merged_mono
      · intro x hx hxp
        apply hnd.1
        rw [← hxp]
        exact List.mem_map_of_mem _ hx
      · exact upsertTrackOne_merged_self db p
    · rw [List.foldl_cons]
      exact ih _ hnd.2 p hprest

theorem foldl_upsertTrackOne_fix (l : List TrackPayload) :
    ∀ db : DB,
      (∀ p ∈ l, (∃ r ∈ db.tracks, r.spotify_id = p.spotify_id) ∧
        (∀ r ∈ db.tracks, r.spotify_id = p.spotify_id → mergeTrackRow r p = r)) →
      l.foldl upsertTrackOne db = db := by
  induction l with
  | nil => intro db _; rfl
  | cons q rest ih =>
    intro db h
    have hq := h q (List.mem_cons_self q rest)
    rw [List.foldl_cons, upsertTrackOne_fix db q hq.1 hq.2]
    exact ih db (fun p hp => h p (List.mem_cons_of_mem q hp))

/-! Artist id-keyed upsert: postconditions and fixed point. -/

theorem upsertArtistSidOne_exists_self (db : DB) (k : String × String) :
    ∃ a ∈ (upsertArtistSidOne db k).artists, a.spotify_artist_id = some k.1 := by
  by_cases hany : db.artists.any (fun a => a.spotify_artist_id == some k.1) = true
  · obtain ⟨t, ht, hts⟩ := List.any_eq_true.1 hany
    rw [beq_iff_eq] at hts
    refine ⟨{ t with name := coalesce (some k.2) t.name }, ?_, hts⟩
    simp only [upsertArtistSidOne, hany, if_true]
    exact List.mem_map.2 ⟨t, ht, by rw [if_pos (by simp [hts])]⟩
  · refine ⟨⟨db.nextArtistId, some k.1, some k.2⟩, ?_, rfl⟩
    simp only [upsertArtistSidOne, hany, if_false]
    exact List.mem_append_right _ (List.mem_singleton.2 rfl)

theorem upsertArtistSidOne_named_self (db : DB) (k : String × String) :
    ∀ a ∈ (upsertArtistSidOne db k).artists,
      a.spotify_artist_id = some k.1 → a.name = some k.2 := by
  intro a ha hsid
  by_cases hany : db.artists.any (fun x => x.spotify_artist_id == some k.1) = true
  · simp only [upsertArtistSidOne, hany, if_true] at ha
    obtain ⟨t, ht, hft⟩ := List.mem_map.1 ha
    by_cases hts : t.spotify_artist_id = some k.1
    · rw [if_pos (by simp [hts])] at hft
      rw [← hft]
      rfl
    · rw [if_neg (by simp [hts])] at hft
      rw [← hft] at hsid
      exact absurd hsid hts
  · simp only [upsertArtistSidOne, hany, if_false] at ha
    rcases List.mem_append.1 ha with h1 | h1
    · exact absurd (List.any_eq_true.2 ⟨a, h1, by simp [hsid]⟩) hany
    · rw [List.mem_singleton.1 h1]

theorem upsertArtistSidOne_exists_mono (db : DB) (k : String × String)
    (s : String) (h : ∃ a ∈ db.artists, a.spotify_artist_id = some s) :
    ∃ a ∈ (upsertArtistSidOne db k).artists, a.spotify_artist_id = some s := by
  obtain ⟨a, ha, hs⟩ := h
  by_cases hany : db.artists.any (fun x => x.spotify_artist_id == some k.1) = true
  · by_cases hak : a.spotify_artist_id = some k.1
    · refine ⟨{ a with name := coalesce (some k.2) a.name }, ?_, hs⟩
      simp only [upsertArtistSidOne, hany, if_true]
      exact List.mem_map.2 ⟨a, ha, by rw [if_pos (by simp [hak])]⟩
    · refine ⟨a, ?_, hs⟩
      simp only [upsertArtistSidOne, hany, if_true]
      exact List.mem_map.2 ⟨a, ha, by rw [if_neg (by simp [hak])]⟩
  · refine ⟨a, ?_, hs⟩
    simp only [upsertArtistSidOne, hany, if_false]
    exact List.mem_append_left _ ha

theorem upsertArtistSidOne_named_mono (db : DB) (k k' : String × String)
    (hk : k'.1 ≠ k.1)
    (h : ∀ a ∈ db.artists, a.spotify_artist_id = some k.1 → a.name = some k.2) :
    ∀ a ∈ (upsertArtistSidOne db k').artists,
      a.spotify_artist_id = some k.1 → a.name = some k.2 := by
  intro a ha hsid
  by_cases hany : db.artists.any (fun x => x.spotify_artist_id == some k'.1) = true
  · simp only [upsertArtistSidOne, hany, if_true] at ha
    obtain ⟨t, ht, hft⟩ := List.mem_map.1 ha
    by_cases hts : t.spotify_artist_id = some k'.1
    · rw [if_pos (by simp [hts])] at hft
      rw [← hft] at hsid
      simp only at hsid
      rw [hts] at hsid
      exact absurd (Option.some.inj hsid) hk
    · rw [if_neg (by simp [hts])] at hft
      rw [← hft] at hsid ⊢
      exact h t ht hsid
  · simp only [upsertArtistSidOne, hany, if_false] at ha
    rcases List.mem_append.1 ha with h1 | h1
    · exact h a h1 hsid
    · rw [List.mem_singleton.1 h1] at hsid
      exact absurd (Option.some.inj hsid) hk

theorem upsertArtistSidOne_fix (db : DB) (k : String × String)
    (hex : ∃ a ∈ db.artists, a.spotify_artist_id = some k.1)
    (hnm : ∀ a ∈ db.artists, a.spotify_artist_id = some k.1 → a.name = some k.2) :
    upsertArtistSidOne db k = db := by
  obtain ⟨a0, ha0, hs0⟩ := hex
  have hany : db.artists.any (fun x => x.spotify_artist_id == some k.1) = true :=
    List.any_eq_true.2 ⟨a0, ha0, by simp [hs0]⟩
  have hmap : db.artists.map
      (fun a => if a.spotify_artist_id == some k.1 then
        { a with name := coalesce (some k.2) a.name } else a) = db.artists := by
    apply map_eq_id_of_mem
    intro a ha
    by_cases h : a.spotify_artist_id = some k.1
    · rw [if_pos (by simp [h])]
      have h2 : coalesce (some k.2) a.name = a.name := by
        rw [hnm a ha h]
        rfl
      rw [h2]
    · rw [if_neg (by simp [h])]
  simp only [upsertArtistSidOne, hany, if_true, hmap]

theorem foldl_upsertArtistSidOne_exists_mono (ks : List (String × String))
    (s : String) :
    ∀ db : DB, (∃ a ∈ db.artists, a.spotify_artist_id = some s) →
      ∃ a ∈ (ks.foldl upsertArtistSidOne db).artists,
        a.spotify_artist_id = some s := by
  induction ks with
  | nil => intro db h; exact h
  | cons k rest ih =>
    intro db h
    exact ih _ (upsertArtistSidOne_exists_mono db k s h)

theorem foldl_upsertArtistSidOne_named_mono (ks : List (String × String))
    (k : String × String) (hl : ∀ k' ∈ ks, k'.1 ≠ k.1) :
    ∀ db : DB,
      (∀ a ∈ db.artists, a.spotify_artist_id = some k.1 → a.name = some k.2) →
      ∀ a ∈ (ks.foldl upsertArtistSidOne db).artists,
        a.spotify_artist_id = some k.1 → a.name = some k.2 := by
  induction ks with
  | nil => intro db h; exact h
  | cons k' rest ih =>
    intro db h
    exact ih (fun x hx => hl x (List.mem_cons_of_mem k' hx)) _
      (upsertArtistSidOne_named_mono db k k' (hl k' (List.mem_cons_self k' rest)) h)

theorem upsertArtistsSid_establish (ks : List (String × String)) :
    ∀ db : DB, (ks.map (fun k => k.1)).Nodup →
      ∀ k ∈ ks,
        (∃ a ∈ (ks.foldl upsertArtistSidOne db).artists,
          a.spotify_artist_id = some k.1) ∧
        (∀ a ∈ (ks.foldl upsertArtistSidOne db).artists,
          a.spotify_artist_id = some k.1 → a.name = some k.2) := by
  induction ks with
  | nil => intro db _ k hk; cases hk
  | cons q rest ih =>
    intro db hnd k hk
    rw [List.map_cons, List.nodup_cons] at hnd
    rcases List.mem_cons.1 hk with hkq | hkrest
    · subst hkq
      rw [List.foldl_cons]
      refine ⟨foldl_upsertArtistSidOne_exists_mono rest _ _
        (upsertArtistSidOne_exists_self db k), ?_⟩
      apply foldl_upsertArtistSidOne_named_mono
      · intro x hx hxk
        apply hnd.1
        rw [← hxk]
        exact List.mem_map_of_mem _ hx
      · exact upsertArtistSidOne_named_self db k
    · rw [List.foldl_cons]
      exact ih _ hnd.2 k hkrest

theorem foldl_upsertArtistSidOne_fix (ks : List (String × String)) :
    ∀ db : DB,
      (∀ k ∈ ks, (∃ a ∈ db.artists, a.spotify_artist_id = some k.1) ∧
        (∀ a ∈ db.artists, a.spotify_artist_id = some k.1 → a.name = some k.2)) →
      ks.foldl upsertArtistSidOne db = db := by
  induction ks with
  | nil => intro db _; rfl
  | cons q rest ih =>
    intro db h
    have hq := h q (List.mem_cons_self q rest)
    rw [List.foldl_cons, upsertArtistSidOne_fix db q hq.1 hq.2]
    exact ih db (fun k hk => h k (List.mem_cons_of_mem q hk))

/-! Name-only artist inserts: postconditions and fixed point. -/

theorem insertNameOnlyOne_exists_mono (db : DB) (m : String)
    (P : ArtistRow → Prop) (h : ∃ a ∈ db.artists, P a) :
    ∃ a ∈ (insertNameOnlyOne db m).artists, P a := by
  obtain ⟨a, ha, hP⟩ := h
  by_cases hany : db.artists.any
      (fun x => x.name.map pyLower == some (pyLower m)) = true
  · exact ⟨a, by simp only [insertNameOnlyOne, hany, if_true]; exact ha, hP⟩
  · exact ⟨a, by
      simp only [insertNameOnlyOne, hany, if_false]
      exact List.mem_append_left _ ha, hP⟩

theorem insertNameOnlyOne_lower_self (db : DB) (n : String) :
    ∃ a ∈ (insertNameOnlyOne db n).artists,
      a.name.map pyLower = some (pyLower n) := by
  by_cases hany : db.artists.any
      (fun x => x.name.map pyLower == some (pyLower n)) = true
  · obtain ⟨t, ht, hts⟩ := List.any_eq_true.1 hany
    rw [beq_iff_eq] at hts
    exact ⟨t, by simp only [insertNameOnlyOne, hany, if_true]; exact ht, hts⟩
  · refine ⟨⟨db.nextArtistId, none, some n⟩, ?_, rfl⟩
    simp only [insertNameOnlyOne, hany, if_false]
    exact List.mem_append_right _ (List.mem_singleton.2 rfl)

theorem insertNameOnlyOne_named_mono (db : DB) (m : String)
    (k : String × String)
    (h : ∀ a ∈ db.artists, a.spotify_artist_id = some k.1 → a.name = some k.2) :
    ∀ a ∈ (insertNameOnlyOne db m).artists,
      a.spotify_artist_id = some k.1 → a.name = some k.2 := by
  intro a ha hsid
  by_cases hany : db.artists.any
      (fun x => x.name.map pyLower == some (pyLower m)) = true
  · simp only [insertNameOnlyOne, hany, if_true] at ha
    exact h a ha hsid
  · simp only [insertNameOnlyOne, hany, if_false] at ha
    rcases List.mem_append.1 ha with h1 | h1
    · exact h a h1 hsid
    · rw [List.mem_singleton.1 h1] at hsid
      cases hsid

theorem insertNameOnlyOne_fix (db : DB) (n : String)
    (h : ∃ a ∈ db.artists, a.name.map pyLower = some (pyLower n)) :
    insertNameOnlyOne db n = db := by
  obtain ⟨a, ha, hP⟩ := h
  have hany : db.artists.any
      (fun x => x.name.map pyLower == some (pyLower n)) = true :=
    List.any_eq_true.2 ⟨a, ha, by simp [hP]⟩
  simp only [insertNameOnlyOne, hany, if_true]

theorem foldl_insertNameOnlyOne_exists_mono (ns : List String)
    (P : ArtistRow → Prop) :
    ∀ db : DB, (∃ a ∈ db.artists, P a) →
      ∃ a ∈ (ns.foldl insertNameOnlyOne db).artists, P a := by
  induction ns with
  | nil => intro db h; exact h
  | cons m rest ih =>
    intro db h
    exact ih _ (insertNameOnlyOne_exists_mono db m P h)

theorem insertNameOnly_establish (ns : List String) :
    ∀ db : DB, ∀ n ∈ ns,
      ∃ a ∈ (ns.foldl insertNameOnlyOne db).artists,
        a.name.map pyLower = some (pyLower n) := by
  induction ns with
  | nil => intro db n hn; cases hn
  | cons m rest ih =>
    intro db n hn
    rcases List.mem_cons.1 hn with hnm | hnrest
    · subst hnm
      rw [List.foldl_cons]
      exact foldl_insertNameOnlyOne_exists_mono rest _ _
        (insertNameOnlyOne_lower_self db n)
    · rw [List.foldl_cons]
      exact ih _ n hnrest

theorem foldl_insertNameOnlyOne_fix (ns : List String) :
    ∀ db : DB,
      (∀ n ∈ ns, ∃ a ∈ db.artists, a.name.map pyLower = some (pyLower n)) →
      ns.foldl insertNameOnlyOne db = db := by
  induction ns with
  | nil => intro db _; rfl
  | cons m rest ih =>
    intro db h
    rw [List.foldl_cons, insertNameOnlyOne_fix db m (h m (List.mem_cons_self m rest))]
    exact ih db (fun n hn => h n (List.mem_cons_of_mem m hn))

theorem insertNameOnlyStep_named_mono (keys : List (Option String × String))
    (k : String × String) (db : DB)
    (h : ∀ a ∈ db.artists, a.spotify_artist_id = some k.1 → a.name = some k.2) :
    ∀ a ∈ (insertNameOnlyStep keys db).artists,
      a.spotify_artist_id = some k.1 → a.name = some k.2 := by
  unfold insertNameOnlyStep
  generalize nameOnlyKeys keys = ns
  induction ns generalizing db with
  | nil => exact h
  | cons m rest ih =>
    rw [List.foldl_cons]
    exact ih _ (insertNameOnlyOne_named_mono db m k h)

theorem insertNameOnlyStep_exists_mono (keys : List (Option String × String))
    (db : DB) (P : ArtistRow → Prop) (h : ∃ a ∈ db.artists, P a) :
    ∃ a ∈ (insertNameOnlyStep keys db).artists, P a :=
  foldl_insertNameOnlyOne_exists_mono _ P db h

/-! Association inserts: postconditions and fixed points. -/

theorem insertTrackArtistOne_mem_mono (db : DB) (w : TrackArtistRow)
    {r : TrackArtistRow} (h : r ∈ db.track_artists) :
    r ∈ (insertTrackArtistOne db w).track_artists := by
  simp only [insertTrackArtistOne]
  split
  · exact h
  · exact List.mem_append_left _ h

theorem insertTrackArtistOne_present_self (db : DB) (v : TrackArtistRow) :
    ∃ r ∈ (insertTrackArtistOne db v).track_artists,
      r.track_id = v.track_id ∧ r.artist_id = v.artist_id := by
  by_cases hany : db.track_artists.any
      (fun r => r.track_id == v.track_id && r.artist_id == v.artist_id) = true
  · obtain ⟨t, ht, hts⟩ := List.any_eq_true.1 hany
    rw [Bool.and_eq_true, beq_iff_eq, beq_iff_eq] at hts
    refine ⟨t, ?_, hts⟩
    simp only [insertTrackArtistOne, hany, if_true]
    exact ht
  · refine ⟨v, ?_, rfl, rfl⟩
    simp only [insertTrackArtistOne, hany, if_false]
    exact List.mem_append_right _ (List.mem_singleton.2 rfl)

theorem foldl_insertTrackArtistOne_mem_mono (vs : List TrackArtistRow)
    {r : TrackArtistRow} :
    ∀ db : DB, r ∈ db.track_artists →
      r ∈ (vs.foldl insertTrackArtistOne db).track_artists := by
  induction vs with
  | nil => intro db h; exact h
  | cons w rest ih =>
    intro db h
    exact ih _ (insertTrackArtistOne_mem_mono db w h)

theorem insertTrackArtists_establish (vs : List TrackArtistRow) :
    ∀ db : DB, ∀ v ∈ vs,
      ∃ r ∈ (insertTrackArtistsStep vs db).track_artists,
        r.track_id = v.track_id ∧ r.artist_id = v.artist_id := by
  induction vs with
  | nil => intro db v hv; cases hv
  | cons w rest ih =>
    intro db v hv
    rcases List.mem_cons.1 hv with hvw | hvrest
    · subst hvw
      obtain ⟨r, hr, hp⟩ := insertTrackArtistOne_present_self db v
      exact ⟨r, foldl_insertTrackArtistOne_mem_mono rest _ hr, hp⟩
    · exact ih _ v hvrest

theorem insertTrackArtistOne_fix (db : DB) (v : TrackArtistRow)
    (h : ∃ r ∈ db.track_artists,
      r.track_id = v.track_id ∧ r.artist_id = v.artist_id) :
    insertTrackArtistOne db v = db := by
  obtain ⟨r, hr, h1, h2⟩ := h
  have hany : db.track_artists.any
      (fun r => r.track_id == v.track_id && r.artist_id == v.artist_id) = true :=
    List.any_eq_true.2 ⟨r, hr, by simp [h1, h2]⟩
  simp only [insertTrackArtistOne, hany, if_true]

theorem insertTrackArtistsStep_fix (vs : List TrackArtistRow) :
    ∀ db : DB,
      (∀ v ∈ vs, ∃ r ∈ db.track_artists,
        r.track_id = v.track_id ∧ r.artist_id = v.artist_id) →
      insertTrackArtistsStep vs db = db := by
  induction vs with
  | nil => intro db _; rfl
  | cons w rest ih =>
    intro db h
    have hw := insertTrackArtistOne_fix db w (h w (List.mem_cons_self w rest))
    show (w :: rest).foldl insertTrackArtistOne db = db
    rw [List.foldl_cons, hw]
    exact ih db (fun v hv => h v (List.mem_cons_of_mem w hv))

theorem insertPackTrackOne_mem_mono (db : DB) (w : PackTrackRow)
    {r : PackTrackRow} (h : r ∈ db.pack_tracks) :
    r ∈ (insertPackTrackOne db w).pack_tracks := by
  simp only [insertPackTrackOne]
  split
  · exact h
  · exact List.mem_append_left _ h

theorem insertPackTrackOne_present_self (db : DB) (v : PackTrackRow) :
    ∃ r ∈ (insertPackTrackOne db v).pack_tracks,
      r.pack_id = v.pack_id ∧ r.track_id = v.track_id := by
  by_cases hany : db.pack_tracks.any
      (fun r => r.pack_id == v.pack_id && r.track_id == v.track_id) = true
  · obtain ⟨t, ht, hts⟩ := List.any_eq_true.1 hany
    rw [Bool.and_eq_true, beq_iff_eq, beq_iff_eq] at hts
    refine ⟨t, ?_, hts⟩
    simp only [insertPackTrackOne, hany, if_true]
    exact ht
  · refine ⟨v, ?_, rfl, rfl⟩
    simp only [insertPackTrackOne, hany, if_false]
    exact List.mem_append_right _ (List.mem_singleton.2 rfl)

theorem foldl_insertPackTrackOne_mem_mono (vs : List PackTrackRow)
    {r : PackTrackRow} :
    ∀ db : DB, r ∈ db.pack_tracks →
      r ∈ (vs.foldl insertPackTrackOne db).pack_tracks := by
  induction vs with
  | nil => intro db h; exact h
  | cons w rest ih =>
    intro db h
    exact ih _ (insertPackTrackOne_mem_mono db w h)

theorem insertPackTracks_establish (vs : List PackTrackRow) :
    ∀ db : DB, ∀ v ∈ vs,
      ∃ r ∈ (insertPackTracksStep vs db).pack_tracks,
        r.pack_id = v.pack_id ∧ r.track_id = v.track_id := by
  induction vs with
  | nil => intro db v hv; cases hv
  | cons w rest ih =>
    intro db v hv
    rcases List.mem_cons.1 hv with hvw | hvrest
    · subst hvw
      obtain ⟨r, hr, hp⟩ := insertPackTrackOne_present_self db v
      exact ⟨r, foldl_insertPackTrackOne_mem_mono rest _ hr, hp⟩
    · exact ih _ v hvrest

theorem insertPackTrackOne_fix (db : DB) (v : PackTrackRow)
    (h : ∃ r ∈ db.pack_tracks, r.pack_id = v.pack_id ∧ r.track_id = v.track_id) :
    insertPackTrackOne db v = db := by
  obtain ⟨r, hr, h1, h2⟩ := h
  have hany : db.pack_tracks.any
      (fun r => r.pack_id == v.pack_id && r.track_id == v.track_id) = true :=
    List.any_eq_true.2 ⟨r, hr, by simp [h1, h2]⟩
  simp only [insertPackTrackOne, hany, if_true]

theorem insertPackTracksStep_fix (vs : List PackTrackRow) :
    ∀ db : DB,
      (∀ v ∈ vs, ∃ r ∈ db.pack_tracks,
        r.pack_id = v.pack_id ∧ r.track_id = v.track_id) →
      insertPackTracksStep vs db = db := by
  induction vs with
  | nil => intro db _; rfl
  | cons w rest ih =>
    intro db h
    have hw := insertPackTrackOne_fix db w (h w (List.mem_cons_self w rest))
    show (w :: rest).foldl insertPackTrackOne db = db
    rw [List.foldl_cons, hw]
    exact ih db (fun v hv => h v (List.mem_cons_of_mem w hv))

/-- The pack link statement only ever appends rows whose (pack, track)
pair is not already present: existing rows and their positions survive
any insert batch unchanged. -/
theorem insertPackTracksStep_append (vs : List PackTrackRow) :
    ∀ db : DB, ∃ new,
      (insertPackTracksStep vs db).pack_tracks = db.pack_tracks ++ new ∧
      ∀ q ∈ new, ∀ r ∈ db.pack_tracks,
        ¬(q.pack_id = r.pack_id ∧ q.track_id = r.track_id) := by
  induction vs with
  | nil =>
    intro db
    exact ⟨[], by simp [insertPackTracksStep], by simp⟩
  | cons v rest ih =>
    intro db
    show ∃ new, ((v :: rest).foldl insertPackTrackOne db).pack_tracks = _ ∧ _
    rw [List.foldl_cons]
    by_cases hany : db.pack_tracks.any
        (fun r => r.pack_id == v.pack_id && r.track_id == v.track_id) = true
    · have hfix : insertPackTrackOne db v = db := by
        simp only [insertPackTrackOne, hany, if_true]
      rw [hfix]
      exact ih db
    · have happ : insertPackTrackOne db v =
          { db with pack_tracks := db.pack_tracks ++ [v] } := by
        simp only [insertPackTrackOne]
        rw [if_neg hany]
      rw [happ]
      obtain ⟨new1, hnew1, hfresh1⟩ :=
        ih { db with pack_tracks := db.pack_tracks ++ [v] }
      refine ⟨v :: new1, ?_, ?_⟩
      · show (insertPackTracksStep rest
            { db with pack_tracks := db.pack_tracks ++ [v] }).pack_tracks = _
        rw [hnew1]
        simp
      · intro q hq r hr
        rcases List.mem_cons.1 hq with hqv | hqnew
        · subst hqv
          rintro ⟨hpp, htt⟩
          exact hany (List.any_eq_true.2 ⟨r, hr, by simp [hpp, htt]⟩)
        · exact hfresh1 q hqnew r (List.mem_append_left _ hr)

/-- Shape of a successful batch body: the Nodup side conditions of the two
`ON CONFLICT DO UPDATE` statements hold, the artist lookup succeeded, and
the result state is the Step 7 insert over the Step 6 insert over the
post-artist state. -/
theorem addTracksBody_ok_elim {pid : String} {ts : List TrackPayload}
    {db db' : DB} {n : Nat} (h : addTracksBody pid ts db = .ok (db', n)) :
    ∃ alook,
      (ts.map (fun p => p.spotify_id)).Nodup ∧
      ((sidKeys (collectArtists ts)).map (fun k => k.1)).Nodup ∧
      buildArtistLookup (collectArtists ts) (dbAfterArtists ts db).artists =
        .ok alook ∧
      db' = insertPackTracksStep
          (buildLinkValues pid ts
            (buildTrackIdLookup ts (dbAfterArtists ts db).tracks))
          (insertTrackArtistsStep
            (buildTrackArtistValues ts
              (buildTrackIdLookup ts (dbAfterArtists ts db).tracks) alook)
            (dbAfterArtists ts db)) ∧
      n = (buildLinkValues pid ts
        (buildTrackIdLookup ts (dbAfterArtists ts db).tracks)).length := by
  cases h1 : upsertTracksStep ts db with
  | error e =>
    simp only [addTracksBody, h1] at h
    exact Except.noConfusion h
  | ok db1 =>
    have hnd : (ts.map (fun p => p.spotify_id)).Nodup := by
      by_contra hc
      simp only [upsertTracksStep, if_neg hc] at h1
      exact Except.noConfusion h1
    have hdb1 : db1 = ts.foldl upsertTrackOne db := by
      simp only [upsertTracksStep, if_pos hnd] at h1
      exact (Except.ok.inj h1).symm
    subst hdb1
    cases h2 : upsertArtistsSidStep (collectArtists ts)
        (ts.foldl upsertTrackOne db) with
    | error e =>
      simp only [addTracksBody, h1, h2] at h
      exact Except.noConfusion h
    | ok db2 =>
      have hnd2 : ((sidKeys (collectArtists ts)).map (fun k => k.1)).Nodup := by
        by_contra hc
        simp only [upsertArtistsSidStep, if_neg hc] at h2
        exact Except.noConfusion h2
      have hdb2 : db2 = (sidKeys (collectArtists ts)).foldl upsertArtistSidOne
          (ts.foldl upsertTrackOne db) := by
        simp only [upsertArtistsSidStep, if_pos hnd2] at h2
        exact (Except.ok.inj h2).symm
      subst hdb2
      cases h3 : buildArtistLookup (collectArtists ts)
          (insertNameOnlyStep (collectArtists ts)
            ((sidKeys (collectArtists ts)).foldl upsertArtistSidOne
              (ts.foldl upsertTrackOne db))).artists with
      | error e =>
        simp only [addTracksBody, h1, h2, h3] at h
        exact Except.noConfusion h
      | ok alook =>
        simp only [addTracksBody, h1, h2, h3, Except.ok.injEq,
          Prod.mk.injEq] at h
        exact ⟨alook, hnd, hnd2, h3, h.1.symm, h.2.symm⟩

/-- Master re-run lemma: a successful batch body is a fixed point — run
again on its own committed result, the body succeeds with the identical
state and return value. -/
theorem addTracksBody_idem (pid : String) (ts : List TrackPayload)
    (db0 s1 : DB) (n : Nat) (h : addTracksBody pid ts db0 = .ok (s1, n)) :
    addTracksBody pid ts s1 = .ok (s1, n) := by
  obtain ⟨alook, hnd, hnd2, halook, hdb', hn⟩ := addTracksBody_ok_elim h
  set D := dbAfterArtists ts db0 with hD
  have hDtracks : D.tracks = (ts.foldl upsertTrackOne db0).tracks := by
    rw [hD]
    unfold dbAfterArtists
    rw [insertNameOnlyStep_tracks, foldl_upsertArtistSidOne_tracks]
  have hs1tracks : s1.tracks = D.tracks := by
    rw [hdb', insertPackTracksStep_tracks, insertTrackArtistsStep_tracks]
  have hs1artists : s1.artists = D.artists := by
    rw [hdb', insertPackTracksStep_artists, insertTrackArtistsStep_artists]
  have hs1ta : s1.track_artists =
      (insertTrackArtistsStep
        (buildTrackArtistValues ts (buildTrackIdLookup ts D.tracks) alook)
        D).track_artists := by
    rw [hdb', insertPackTracksStep_track_artists]
  have hfix1 : ts.foldl upsertTrackOne s1 = s1 := by
    apply foldl_upsertTrackOne_fix
    intro p hp
    have hest := upsertTracks_establish ts db0 hnd p hp
    constructor
    · rw [hs1tracks, hDtracks]
      exact hest.1
    · rw [hs1tracks, hDtracks]
      exact hest.2
  have hstep1 : upsertTracksStep ts s1 = .ok s1 := by
    unfold upsertTracksStep
    rw [if_pos hnd, hfix1]
  have hfix2 : (sidKeys (collectArtists ts)).foldl upsertArtistSidOne s1 = s1 := by
    apply foldl_upsertArtistSidOne_fix
    intro k hk
    have hest := upsertArtistsSid_establish (sidKeys (collectArtists ts))
      (ts.foldl upsertTrackOne db0) hnd2 k hk
    constructor
    · rw [hs1artists, hD]
      unfold dbAfterArtists
      exact insertNameOnlyStep_exists_mono _ _ _ hest.1
    · rw [hs1artists, hD]
      unfold dbAfterArtists
      exact insertNameOnlyStep_named_mono _ k _ hest.2
  have hstep2 : upsertArtistsSidStep (collectArtists ts) s1 = .ok s1 := by
    unfold upsertArtistsSidStep
    rw [if_pos hnd2, hfix2]
  have hfix3 : insertNameOnlyStep (collectArtists ts) s1 = s1 := by
    unfold insertNameOnlyStep
    apply foldl_insertNameOnlyOne_fix
    intro m hm
    have hest := insertNameOnly_establish (nameOnlyKeys (collectArtists ts))
      ((sidKeys (collectArtists ts)).foldl upsertArtistSidOne
        (ts.foldl upsertTrackOne db0)) m hm
    rw [hs1artists, hD]
    unfold dbAfterArtists
    exact hest
  have halook2 : buildArtistLookup (collectArtists ts) s1.artists = .ok alook := by
    rw [hs1artists]
    exact halook
  have htlook : buildTrackIdLookup ts s1.tracks =
      buildTrackIdLookup ts D.tracks := by
    rw [hs1tracks]
  have hfix4 : insertTrackArtistsStep
      (buildTrackArtistValues ts (buildTrackIdLookup ts s1.tracks) alook) s1 =
      s1 := by
    apply insertTrackArtistsStep_fix
    intro v hv
    rw [htlook] at hv
    have hest := insertTrackArtists_establish
      (buildTrackArtistValues ts (buildTrackIdLookup ts D.tracks) alook) D v hv
    rw [hs1ta]
    exact hest
  have hfix5 : insertPackTracksStep
      (buildLinkValues pid ts (buildTrackIdLookup ts s1.tracks)) s1 = s1 := by
    apply insertPackTracksStep_fix
    intro v hv
    rw [htlook] at hv
    have hest := insertPackTracks_establish
      (buildLinkValues pid ts (buildTrackIdLookup ts D.tracks))
      (insertTrackArtistsStep
        (buildTrackArtistValues ts (buildTrackIdLookup ts D.tracks) alook) D)
      v hv
    rw [hdb']
    exact hest
  simp only [addTracksBody, hstep1, hstep2, hfix3, halook2]
  rw [hfix4, hfix5, htlook, hn]

/-- A successful run re-applied to its own result commits the identical
store. -/
theorem runPack_idem (url pid : String) (ts : List TrackPayload) (db0 : DB) :
    runPack url pid ts (runPack url pid ts db0) = runPack url pid ts db0 := by
  unfold runPack add_tracks_to_pack
  by_cases hemp : ts.isEmpty
  · simp [hemp]
  · cases hb : addTracksBody pid ts db0 with
    | error e => simp [hemp, withTransaction, hb]
    | ok pr =>
      obtain ⟨s1, n⟩ := pr
      have h2 := addTracksBody_idem pid ts db0 s1 n hb
      simp [hemp, withTransaction, hb, h2]

/-- Any run only appends pack links whose (pack, track) pair was not
already stored; existing links and their positions are untouched. -/
theorem runPack_append (url pid : String) (l : List TrackPayload) (db : DB) :
    ∃ new, (runPack url pid l db).pack_tracks = db.pack_tracks ++ new ∧
      ∀ q ∈ new, ∀ r ∈ db.pack_tracks,
        ¬(q.pack_id = r.pack_id ∧ q.track_id = r.track_id) := by
  by_cases hemp : l.isEmpty
  · refine ⟨[], ?_, by simp⟩
    unfold runPack add_tracks_to_pack
    simp [hemp]
  · cases hb : addTracksBody pid l db with
    | error e =>
      refine ⟨[], ?_, by simp⟩
      unfold runPack add_tracks_to_pack
      simp [hemp, withTransaction, hb]
    | ok pr =>
      obtain ⟨db', n⟩ := pr
      obtain ⟨alook, hnd, hnd2, halook, hdb', hn⟩ := addTracksBody_ok_elim hb
      have hrun : runPack url pid l db = db' := by
        unfold runPack add_tracks_to_pack
        simp [hemp, withTransaction, hb]
      obtain ⟨new, hnew, hfresh⟩ := insertPackTracksStep_append
        (buildLinkValues pid l (buildTrackIdLookup l (dbAfterArtists l db).tracks))
        (insertTrackArtistsStep
          (buildTrackArtistValues l
            (buildTrackIdLookup l (dbAfterArtists l db).tracks) alook)
          (dbAfterArtists l db))
      have hdb4pt : (insertTrackArtistsStep
          (buildTrackArtistValues l
            (buildTrackIdLookup l (dbAfterArtists l db).tracks) alook)
          (dbAfterArtists l db)).pack_tracks = db.pack_tracks := by
        rw [insertTrackArtistsStep_pack_tracks]
        unfold dbAfterArtists
        rw [insertNameOnlyStep_pack_tracks, foldl_upsertArtistSidOne_pack_tracks,
          foldl_upsertTrackOne_pack_tracks]
      refine ⟨new, ?_, ?_⟩
      · rw [hrun, hdb', hnew, hdb4pt]
      · intro q hq r hr
        refine hfresh q hq r ?_
        rw [hdb4pt]
        exact hr

/-- C2: re-running `add_tracks_to_pack` on its own committed result with
the identical batch leaves the TrackArtist and PackTrack tables exactly as
after the first run (no duplicate pairs, no position changes), and any
second run — even with a different batch placing tracks at different
1-based indices — only appends pack links with fresh (pack, track) pairs,
so every stored PackTrack position is left untouched. -/
theorem c2_association_idempotence (url pid : String)
    (ts ts2 : List TrackPayload) (db0 : DB) :
    (runPack url pid ts (runPack url pid ts db0)).track_artists =
      (runPack url pid ts db0).track_artists ∧
    (runPack url pid ts (runPack url pid ts db0)).pack_tracks =
      (runPack url pid ts db0).pack_tracks ∧
    ∃ new,
      (runPack url pid ts2 (runPack url pid ts db0)).pack_tracks =
        (runPack url pid ts db0).pack_tracks ++ new ∧
      ∀ q ∈ new, ∀ r ∈ (runPack url pid ts db0).pack_tracks,
        ¬(q.pack_id = r.pack_id ∧ q.track_id = r.track_id) :=
  ⟨by rw [runPack_idem], by rw [runPack_idem],
   runPack_append url pid ts2 (runPack url pid ts db0)⟩

end Trackstar
